import Mathlib

/-!
Verification development for the pandoc-notion tree-transformation engine.

The Python source (managers + models + registry) is embedded shallowly:
Python strings are Lean `String`s manipulated through explicit
character-list helpers mirroring `str.find` / slicing / `lstrip` /
`split`, Python dictionaries become a small `Json` model, the panflute
AST becomes the `Pandoc.Inline` / `Pandoc.Block` inductives, and the
in-place AST mutation performed by the list converter is made explicit
by state passing (the converter returns the post-call source tree
alongside its result).  Python exceptions are modelled with
`Except PyError`.
-/

namespace PandocNotion

/-- Python exception kinds that the conversion pipeline can raise.
`convert_with_manager` catches `ValueError`/`TypeError` but re-raises
anything else, so the distinction is semantically relevant. -/
inductive PyError where
  | valueError
  | attributeError
deriving DecidableEq, Repr

/-! ## Python string helpers (character-level, mirroring `str` methods) -/

/-- `matchesAt pat s`: does `pat` occur at the head of `s`?
(Mirrors the prefix test done by Python's `str.find` at one position.) -/
def matchesAt : List Char → List Char → Bool
  | [], _ => true
  | _ :: _, [] => false
  | p :: ps, c :: cs => p == c && matchesAt ps cs

/-- `findPatAux s pat idx` scans `s`, returning the absolute index (the
scan started at absolute index `idx`) of the first occurrence of `pat`,
like Python's `str.find` restricted to the tail starting at `idx`. -/
def findPatAux : List Char → List Char → Nat → Option Nat
  | s, pat, idx =>
    if matchesAt pat s then some idx
    else
      match s with
      | [] => none
      | _ :: rest => findPatAux rest pat (idx + 1)

/-- Python `s.find(pat, start)` (with `none` standing for `-1`). -/
def pyFind (s pat : String) (start : Nat) : Option Nat :=
  findPatAux (s.toList.drop start) pat.toList start

/-- Python slice `s[a:b]` (for `a b : Nat`; an empty string results when
`a ≥ b`, as in Python). -/
def pySlice (s : String) (a b : Nat) : String :=
  String.mk ((s.toList.drop a).take (b - a))

/-- Python `s[a:]`. -/
def pyDropSlice (s : String) (a : Nat) : String :=
  String.mk (s.toList.drop a)

/-- Python `s.lstrip()` (whitespace variant). -/
def pyLstrip (s : String) : String :=
  String.mk (s.toList.dropWhile Char.isWhitespace)

/-- Python `s.strip()` (whitespace variant). -/
def pyStrip (s : String) : String :=
  String.mk (((s.toList.dropWhile Char.isWhitespace).reverse.dropWhile
    Char.isWhitespace).reverse)

/-- Python `s.startswith(pat)`. -/
def pyStartswith (s pat : String) : Bool :=
  matchesAt pat.toList s.toList

/-- Python `s.endswith(pat)`. -/
def pyEndswith (s pat : String) : Bool :=
  matchesAt pat.toList.reverse s.toList.reverse

/-- Worker for Python `s.split(pat)` with non-empty `pat`: emits the
fragment accumulated so far whenever `pat` occurs, then continues after
the occurrence.  The `fuel` argument (always at least the remaining
length, so never exhausted) makes the recursion structural. -/
def pySplitGo (pat : List Char) : Nat → List Char → List Char →
    List (List Char)
  | _, [], acc => [acc.reverse]
  | 0, s, acc => [acc.reverse ++ s]
  | fuel + 1, c :: rest, acc =>
    if matchesAt pat (c :: rest) then
      acc.reverse :: pySplitGo pat fuel ((c :: rest).drop pat.length) []
    else
      pySplitGo pat fuel rest (c :: acc)

/-- Python `s.split(pat)` for a non-empty separator `pat`. -/
def pySplit (s pat : String) : List String :=
  if 0 < pat.toList.length then
    (pySplitGo pat.toList s.toList.length s.toList []).map String.mk
  else
    [s]

/-- Worker for Python `s.replace(old, new)` with non-empty `old`,
with a structural `fuel` argument as in `pySplitGo`. -/
def pyReplaceGo (old new : List Char) : Nat → List Char → List Char
  | _, [] => []
  | 0, s => s
  | fuel + 1, c :: rest =>
    if matchesAt old (c :: rest) then
      new ++ pyReplaceGo old new fuel ((c :: rest).drop old.length)
    else
      c :: pyReplaceGo old new fuel rest

/-- Python `s.replace(old, new)` for a non-empty `old`. -/
def pyReplace (s old new : String) : String :=
  if 0 < old.toList.length then
    String.mk (pyReplaceGo old.toList new.toList s.toList.length s.toList)
  else
    s

/-- Python truthiness of a string (`if s:`). -/
def pyTruthy (s : String) : Bool :=
  !(s.toList.isEmpty)

/-! ## JSON model for the Notion wire format -/

/-- JSON-compatible values, the target of every `to_dict` method. -/
inductive Json where
  | null
  | bool (b : Bool)
  | str (s : String)
  | arr (elems : List Json)
  | obj (fields : List (String × Json))

/-- Look up a key in a JSON object (first occurrence, like a Python
dict whose keys are unique). -/
def Json.lookup : Json → String → Option Json
  | .obj fields, key => go fields key
  | _, _ => none
where
  go : List (String × Json) → String → Option Json
    | [], _ => none
    | (k, v) :: rest, key => if k == key then some v else go rest key

/-! ## Annotations (models/text.py) -/

/-- `Annotations`: text styling flags.  The Python setters mutate and
return whether the value changed; the embedding returns the new record
together with the `changed` flag. -/
structure Annotations where
  bold : Bool
  italic : Bool
  strikethrough : Bool
  underline : Bool
  code : Bool
  color : String
deriving DecidableEq, Repr

/-- The default-constructed `Annotations()`. -/
def Annotations.mkDefault : Annotations :=
  ⟨false, false, false, false, false, "default"⟩

/-- `set_bold`: new state plus the `changed` flag the Python method
returns. -/
def Annotations.set_bold (a : Annotations) (value : Bool) :
    Annotations × Bool :=
  ({ a with bold := value }, a.bold != value)

/-- `set_italic`. -/
def Annotations.set_italic (a : Annotations) (value : Bool) :
    Annotations × Bool :=
  ({ a with italic := value }, a.italic != value)

/-- `copy()` (value semantics make it the identity). -/
def Annotations.copy (a : Annotations) : Annotations := a

/-- `Annotations.to_dict`. -/
def Annotations.to_dict (a : Annotations) : Json :=
  .obj [("bold", .bool a.bold), ("italic", .bool a.italic),
    ("strikethrough", .bool a.strikethrough),
    ("underline", .bool a.underline), ("code", .bool a.code),
    ("color", .str a.color)]

/-- `is_default()`. -/
def Annotations.is_default (a : Annotations) : Bool :=
  !a.bold && !a.italic && !a.strikethrough && !a.underline && !a.code &&
    a.color == "default"

/-! ## Inline elements (models/text.py) -/

/-- Tagged union of the `NotionInlineElement` subclasses: `Text`,
`EquationElement`, `CodeElement`, `MentionElement`. -/
inductive NotionInlineElement where
  | text (content : String) (annotations : Annotations)
      (link : Option String)
  | equation (expression : String) (annotations : Annotations)
  | code (text : String) (annotations : Annotations)
  | mention (mentionType : String) (mentionData : Json)
      (annotations : Annotations) (plainText : String)

namespace NotionInlineElement

/-- `get_content()`: the plain-text projection of each variant. -/
def get_content : NotionInlineElement → String
  | .text content _ _ => content
  | .equation expression _ => expression
  | .code t _ => t
  | .mention _ _ _ plainText => plainText

/-- `to_dict()` of each inline element variant. -/
def to_dict : NotionInlineElement → Json
  | .text content annotations link =>
    .obj [("type", .str "text"),
      ("text", .obj [("content", .str content),
        ("link",
          match link with
          | some u => if pyTruthy u then .obj [("url", .str u)] else .null
          | none => .null)]),
      ("annotations", annotations.to_dict),
      ("plain_text", .str content)]
  | .equation expression annotations =>
    .obj [("type", .str "equation"),
      ("equation", .obj [("expression", .str expression)]),
      ("annotations", annotations.to_dict),
      ("plain_text", .str expression)]
  | .code t annotations =>
    .obj [("type", .str "text"),
      ("text", .obj [("content", .str t)]),
      ("annotations", annotations.to_dict),
      ("plain_text", .str t)]
  | .mention mentionType mentionData annotations plainText =>
    .obj [("type", .str "mention"),
      ("mention", .obj [(mentionType, mentionData)]),
      ("annotations", annotations.to_dict),
      ("plain_text", .str plainText)]

end NotionInlineElement

/-- The `annotations_match` test inside `merge_consecutive_texts`:
field-by-field comparison of the six annotation fields. -/
def annotationsMatch (a b : Annotations) : Bool :=
  a.bold == b.bold && a.italic == b.italic &&
    a.strikethrough == b.strikethrough && a.underline == b.underline &&
    a.code == b.code && a.color == b.color

/-- The merge guard of `merge_consecutive_texts`: both elements are
`Text`, their annotations match and their links match. -/
def canMerge : NotionInlineElement → NotionInlineElement → Bool
  | .text _ a1 l1, .text _ a2 l2 => annotationsMatch a1 a2 && l1 == l2
  | _, _ => false

/-- Worker of `merge_consecutive_texts`: `prev` plays the role of
`result[-1]`, which the Python loop extends in place. -/
def mergeAux : NotionInlineElement → List NotionInlineElement →
    List NotionInlineElement
  | prev, [] => [prev]
  | prev, current :: rest =>
    match prev, current with
    | .text c1 a1 l1, .text c2 a2 l2 =>
      if annotationsMatch a1 a2 && l1 == l2 then
        mergeAux (.text (c1 ++ c2) a1 l1) rest
      else
        .text c1 a1 l1 :: mergeAux (.text c2 a2 l2) rest
    | prev, current => prev :: mergeAux current rest

/-- `merge_consecutive_texts` (models/text.py): coalesce adjacent
`Text` elements with identical annotations and identical link. -/
def merge_consecutive_texts : List NotionInlineElement →
    List NotionInlineElement
  | [] => []
  | t :: ts => mergeAux t ts

/-- Is an inline element a `Text` instance? -/
def isTextElement : NotionInlineElement → Bool
  | .text _ _ _ => true
  | _ => false

/-- The merge key of an inline element: `Text` elements merge exactly
when their keys agree and are present. -/
def mKey : NotionInlineElement → Option (Annotations × Option String)
  | .text _ a l => some (a, l)
  | _ => none

/-- Concatenation of `get_content` over a list, as a character list. -/
def plainConcat (l : List NotionInlineElement) : List Char :=
  l.foldr (fun e acc => e.get_content.toList ++ acc) []

/-- No two adjacent elements are mergeable — the shape
`merge_consecutive_texts` leaves behind. -/
def mergedNormal : List NotionInlineElement → Bool
  | [] => true
  | [_] => true
  | a :: b :: rest => !canMerge a b && mergedNormal (b :: rest)

/-! ## Notion block model (models/) -/

mutual
/-- Tagged union of the Notion block model classes: `Paragraph`,
`Heading` (level already clamped by `Heading.__init__`), `Code`,
`Equation`, `Quote`, and the `List` helper aggregate. -/
inductive NBlock where
  | paragraph (text_content : List NotionInlineElement)
  | heading (level : Nat) (text_content : List NotionInlineElement)
  | code (codeText : String) (language : String)
      (caption : Option String)
  | equation (expression : String) (equation_number : Option String)
  | quote (text_content : List NotionInlineElement)
      (children : List NBlock)
  | nlist (listType : String) (items : List NListItem)

/-- `ListItem` (models/list.py): rich text, nested child blocks,
`item_type ∈ {bulleted, numbered, todo}` and the `checked` flag. -/
inductive NListItem where
  | mk (text_content : List NotionInlineElement)
      (children : List NBlock) (item_type : String) (checked : Bool)
end

/-- `ListItem.__init__`: `checked` is forced to `False` unless
`item_type == "todo"`. -/
def NListItem.make (text_content : List NotionInlineElement)
    (item_type : String) (checked : Bool) : NListItem :=
  .mk text_content [] item_type
    (if item_type == "todo" then checked else false)

/-- `Heading.__init__` clamps the level to the range 1–3. -/
def headingClampedLevel (level : Nat) : Nat :=
  min (max level 1) 3

/-- `Heading.__init__`: stores the clamped level (the block type string
is derived from it at serialization time in this embedding, matching
`heading_type = f"heading_{clamped_level}"`). -/
def headingInit (level : Nat)
    (text_content : List NotionInlineElement) : NBlock :=
  .heading (headingClampedLevel level) text_content

/-- The `item_type_mapping` lookup in `List.to_dict`, with its
`BULLETED` default. -/
def itemTypeMapping (t : String) : String :=
  if t == "bulleted" then "bulleted_list_item"
  else if t == "numbered" then "numbered_list_item"
  else if t == "todo" then "to_do"
  else "bulleted_list_item"

/-- Python truthiness of a JSON value (used by the comprehension
filter `if block_dict` in `ListItem.to_dict`). -/
def jsonTruthy : Json → Bool
  | .null => false
  | .bool b => b
  | .str s => pyTruthy s
  | .arr elems => !elems.isEmpty
  | .obj fields => !fields.isEmpty

mutual
/-- A block's `to_dict()` normalized to the list view that consumers
apply: a `List` aggregate's `to_dict` returns one dict per item, every
other block returns a single dict (wrapped in a singleton here, the
way `Quote.to_dict` and `ListItem.to_dict` treat it). -/
def blockDicts : NBlock → List Json
  | .paragraph text_content =>
    [.obj [("object", .str "block"), ("type", .str "paragraph"),
      ("paragraph", .obj [("rich_text",
          .arr ((merge_consecutive_texts text_content).map
            NotionInlineElement.to_dict)),
        ("color", .str "default")])]]
  | .heading level text_content =>
    [.obj [("object", .str "block"),
      ("type", .str ("heading_" ++ toString level)),
      ("heading_" ++ toString level, .obj [("rich_text",
          .arr ((merge_consecutive_texts text_content).map
            NotionInlineElement.to_dict)),
        ("color", .str "default")])]]
  | .code codeText language caption =>
    [.obj [("object", .str "block"), ("type", .str "code"),
      ("code", .obj [("caption",
          match caption with
          | some c =>
            if pyTruthy c then
              .arr [(NotionInlineElement.text c Annotations.mkDefault
                none).to_dict]
            else .arr []
          | none => .arr []),
        ("rich_text", .arr [(NotionInlineElement.text codeText
          Annotations.mkDefault none).to_dict]),
        ("language", .str language)])]]
  | .equation expression _ =>
    [.obj [("object", .str "block"), ("type", .str "equation"),
      ("equation", .obj [("expression", .str expression)])]]
  | .quote text_content children =>
    let richText := (merge_consecutive_texts text_content).map
      NotionInlineElement.to_dict
    if children.isEmpty then
      [.obj [("object", .str "block"), ("type", .str "quote"),
        ("quote", .obj [("rich_text", .arr richText),
          ("color", .str "default")])]]
    else
      [.obj [("object", .str "block"), ("type", .str "quote"),
        ("quote", .obj [("rich_text", .arr richText),
          ("color", .str "default"),
          ("children", .arr (childrenDicts children))]),
        ("has_children", .bool true)]]
  | .nlist _ items => itemDicts items

/-- `Quote.to_dict`'s child loop: `extend` for list-valued
`child.to_dict()` (a `List` aggregate), `append` otherwise. -/
def childrenDicts : List NBlock → List Json
  | [] => []
  | b :: bs => blockDicts b ++ childrenDicts bs

/-- `List.to_dict`: one wire block per item. -/
def itemDicts : List NListItem → List Json
  | [] => []
  | i :: is => itemDict i :: itemDicts is

/-- One iteration of `List.to_dict` over an item, inlining
`ListItem.to_dict` (rich text, flattened truthy children). -/
def itemDict : NListItem → Json
  | ⟨text_content, children, item_type, checked⟩ =>
    let notionType := itemTypeMapping item_type
    let richText := (merge_consecutive_texts text_content).map
      NotionInlineElement.to_dict
    let childData :=
      if children.isEmpty then []
      else (childrenDicts children).filter jsonTruthy
    .obj ([("object", .str "block"), ("type", .str notionType),
      (notionType, .obj ([("rich_text", .arr richText),
        ("color", .str "default")] ++
        (if notionType == "to_do" then [("checked", .bool checked)]
         else []) ++
        (if childData.isEmpty then []
         else [("children", .arr childData)])))] ++
      (if childData.isEmpty then []
       else [("has_children", .bool true)]))
end

/-! ## Equation manager (managers/equation_manager.py, models/equation.py) -/

/-- `EquationManager._convert_latex_to_katex`: the `LATEX_TO_KATEX`
table contains the single entry `\eqref → \ref`. -/
def convert_latex_to_katex (expression : String) : String :=
  pyReplace expression "\\eqref" "\\ref"

/-- The `\label{}` fallback inside
`EquationManager._extract_equation_number`. -/
def extractLabelNumber (expression : String) : Option String :=
  match pyFind expression "\\label\x7b" 0 with
  | some labelStart =>
    (match pyFind expression "\x7d" labelStart with
     | some labelEnd =>
       if labelStart < labelEnd then
         some (pySlice expression (labelStart + 7) labelEnd)
       else none
     | none => none)
  | none => none

/-- `EquationManager._extract_equation_number`: a `\tag{...}` number
takes precedence (the source slices from `tag_start + 6`, although
`\tag{` is five characters long), else a `\label{...}` number, else
none. -/
def extract_equation_number (expression : String) : Option String :=
  match pyFind expression "\\tag\x7b" 0 with
  | some tagStart =>
    (match pyFind expression "\x7d" tagStart with
     | some tagEnd =>
       if tagStart < tagEnd then
         some (pySlice expression (tagStart + 6) tagEnd)
       else extractLabelNumber expression
     | none => extractLabelNumber expression)
  | none => extractLabelNumber expression

/-- One environment-wrapper case of `Equation._sanitize_expression`:
strip `begin`/`end` markers when both are present. -/
def stripWrap (expr beginMark endMark : String) : String :=
  pyStrip (pySlice expr beginMark.toList.length
    (expr.toList.length - endMark.toList.length))

/-- The `\label{...}` removal step of `Equation._sanitize_expression`:
split on `\label{`, keep the head, and for every later part keep only
what follows its first `}`. -/
def removeLabelSpans (expr : String) : String :=
  if (pyFind expr "\\label\x7b" 0).isSome then
    match pySplit expr "\\label\x7b" with
    | [] => expr
    | p0 :: rest =>
      rest.foldl (fun acc part =>
        if (pyFind part "\x7d" 0).isSome then
          acc ++ (match pyFind part "\x7d" 0 with
            | some i => pyDropSlice part (i + 1)
            | none => "")
        else acc) p0
  else expr

/-- `Equation._sanitize_expression`. -/
def sanitize_expression (expr : String) : String :=
  let expr := pyStrip expr
  let expr :=
    if pyStartswith expr "\\begin{equation}" &&
        pyEndswith expr "\\end{equation}" then
      stripWrap expr "\\begin{equation}" "\\end{equation}"
    else if pyStartswith expr "\\begin{align}" &&
        pyEndswith expr "\\end{align}" then
      stripWrap expr "\\begin{align}" "\\end{align}"
    else if pyStartswith expr "\\begin{aligned}" &&
        pyEndswith expr "\\end{aligned}" then
      stripWrap expr "\\begin{aligned}" "\\end{aligned}"
    else if pyStartswith expr "\\begin{gather}" &&
        pyEndswith expr "\\end{gather}" then
      stripWrap expr "\\begin{gather}" "\\end{gather}"
    else expr
  removeLabelSpans expr

/-- `Equation.__init__`: stores the sanitized expression and the
number as given. -/
def equationInit (expression : String)
    (equation_number : Option String) : NBlock :=
  .equation (sanitize_expression expression) equation_number

/-- `EquationManager.convert` on the text of a DisplayMath element:
KaTeX conversion, number extraction, `Equation` construction. -/
def equationManagerConvert (mathText : String) : List NBlock :=
  let expression := convert_latex_to_katex mathText
  let equation_number := extract_equation_number expression
  [equationInit expression equation_number]

/-- The `item_type` field of a list item. -/
def NListItem.item_type : NListItem → String
  | ⟨_, _, t, _⟩ => t

/-- The wire shape asserted by the spec for a block of a given kind:
`{"object":"block","type":kind,kind:{...}}`, where looking up
`"color"` inside the kind-keyed object gives `colorField`
(`some "default"` or absent). -/
def hasWireShape (j : Json) (kind : String) (colorField : Option Json) :
    Prop :=
  j.lookup "object" = some (.str "block") ∧
    j.lookup "type" = some (.str kind) ∧
    ∃ inner, j.lookup kind = some inner ∧
      inner.lookup "color" = colorField

/-! ## Pandoc AST (panflute elements) -/

/-- Inline panflute elements used by the converters: `Str`, `Space`,
`SoftBreak`, `LineBreak`, `Emph`, `Strong`, `Math` (with
`display = true` for `DisplayMath`, `false` for `InlineMath`), inline
`Code`, and `Link`. -/
inductive PInline where
  | str (text : String)
  | space
  | softBreak
  | lineBreak
  | emph (content : List PInline)
  | strong (content : List PInline)
  | math (display : Bool) (text : String)
  | code (text : String)
  | link (content : List PInline) (url : String)

/-- Block panflute elements used by the converters: `Para`, `Plain`,
`Header`, `BlockQuote`, `BulletList`, `OrderedList` (list items are
block lists), and `CodeBlock` (with its `classes` and `attributes`). -/
inductive PBlock where
  | para (content : List PInline)
  | plain (content : List PInline)
  | header (level : Nat) (content : List PInline)
  | blockQuote (content : List PBlock)
  | bulletList (items : List (List PBlock))
  | orderedList (items : List (List PBlock))
  | codeBlock (classes : List String)
      (attributes : List (String × String)) (text : String)

/-- A panflute element as seen by the dispatch registry (`pf.Element`
covers both block and inline elements). -/
inductive PElement where
  | block (b : PBlock)
  | inline (i : PInline)

/-! ## Inline conversion engine (managers/text_manager.py,
`InlineElementConverter` handlers in models/text.py) -/

/-- Does `InlineElementConverter` hold a registered handler for this
element's concrete type?  Handlers are registered for `pf.Code`,
`pf.Math` (any format) and `pf.Link`. -/
def hasInlineHandler : PInline → Bool
  | .code _ => true
  | .math _ _ => true
  | .link _ _ => true
  | _ => false

/-- `convert_code_element`: a `CodeElement` whose `__post_init__`
forces the `code` annotation. -/
def convert_code_element (t : String) (annotations : Annotations) :
    NotionInlineElement :=
  .code t { annotations.copy with code := true }

/-- `convert_math_element`: an `EquationElement` carrying the raw math
text. -/
def convert_math_element (t : String) (annotations : Annotations) :
    NotionInlineElement :=
  .equation t annotations.copy

/-- `convert_link_element`: a `Text` whose content is the
concatenation of the link's `Str` children (other children are
dropped) and whose link is the element's URL. -/
def convert_link_element (content : List PInline) (url : String)
    (annotations : Annotations) : NotionInlineElement :=
  .text (content.foldr (fun child acc =>
      match child with
      | .str t => t ++ acc
      | _ => acc) "")
    annotations.copy (some url)

/-- `InlineElementConverter.convert`: dispatch on the element's
concrete type. -/
def inlineElementConvert (e : PInline) (annotations : Annotations) :
    Option NotionInlineElement :=
  match e with
  | .code t => some (convert_code_element t annotations)
  | .math _ t => some (convert_math_element t annotations)
  | .link content url => some (convert_link_element content url
      annotations)
  | _ => none

/-- `TextManager.can_convert` restricted to inline elements (the
block exclusions are handled in `textManager_can_convert`). -/
def textManagerCanConvertInline (i : PInline) : Bool :=
  match i with
  | .str _ | .softBreak | .lineBreak | .space | .link _ _ => true
  | .emph _ | .strong _ => true
  | .math display _ =>
    if display == false then true
    else (inlineElementConvert i Annotations.mkDefault).isSome
  | .code _ => (inlineElementConvert i Annotations.mkDefault).isSome

/-- `TextManager.can_convert` over arbitrary elements: `BlockQuote`,
`Para` and `Header` are explicitly rejected; other block elements fall
through every check (no handler is registered for them). -/
def textManager_can_convert : PElement → Bool
  | .block _ => false
  | .inline i => textManagerCanConvertInline i

/-- `TextManager._is_content_token`. -/
def is_content_token : PInline → Bool
  | .str _ | .space | .softBreak | .lineBreak => true
  | .math display _ => display == false
  | _ => false

/-- `TextManager._is_formatting_token`. -/
def is_formatting_token : PInline → Bool
  | .emph _ | .strong _ => true
  | _ => false

/-- `TextManager._get_content_for_token` (total here; the source
raises on non-content tokens, a branch its callers never reach). -/
def get_content_for_token : PInline → String
  | .str t => t
  | .space => " "
  | .softBreak | .lineBreak => "\n"
  | .math _ t => convert_latex_to_katex t
  | _ => ""

/-- `TextManager._apply_formatting`: toggled annotations plus the
`formatting_changed` flag. -/
def apply_formatting (e : PInline) (current : Annotations) :
    Annotations × Bool :=
  match e with
  | .emph _ => current.copy.set_italic true
  | .strong _ => current.copy.set_bold true
  | _ => (current.copy, false)

/-- The text flush performed by `_process_stream` whenever a buffer is
emitted (`if current_text: result.append(Text(current_text,
annotations=current_annotations.copy()))`). -/
def flushText (currentText : String) (annotations : Annotations) :
    List NotionInlineElement :=
  if pyTruthy currentText then
    [.text currentText annotations.copy none]
  else []

/-- `TextManager._process_stream`: the streaming accumulator.  Output
elements are returned (the Python mutates `result_elements` in
place); `currentText` is the accumulated buffer.  The source's
InlineMath special case is dead code because the `pf.Math` handler
registered in models/text.py always fires first, so it does not
appear here. -/
def processStream : List PInline → Annotations → String →
    List NotionInlineElement
  | [], annotations, currentText => flushText currentText annotations
  | elem :: rest, annotations, currentText =>
    if textManager_can_convert (.inline elem) = false then
      flushText currentText annotations ++ processStream rest annotations ""
    else
      match inlineElementConvert elem annotations.copy with
      | some element =>
        flushText currentText annotations ++ [element] ++
          processStream rest annotations ""
      | none =>
        match elem with
        | .str t => processStream rest annotations (currentText ++ t)
        | .space => processStream rest annotations (currentText ++ " ")
        | .softBreak =>
          processStream rest annotations (currentText ++ "\n")
        | .lineBreak =>
          processStream rest annotations (currentText ++ "\n")
        | .emph cs =>
          let fc := apply_formatting (.emph cs) annotations
          (if fc.2 && pyTruthy currentText then
            flushText currentText annotations
          else []) ++
            processStream cs fc.1 (if fc.2 then "" else currentText) ++
            processStream rest annotations ""
        | .strong cs =>
          let fc := apply_formatting (.strong cs) annotations
          (if fc.2 && pyTruthy currentText then
            flushText currentText annotations
          else []) ++
            processStream cs fc.1 (if fc.2 then "" else currentText) ++
            processStream rest annotations ""
        | _ => processStream rest annotations currentText

/-- `TextManager.create_text_elements` with the default (absent)
`base_annotations`, the form every block converter uses. -/
def create_text_elements (elements : List PInline) :
    List NotionInlineElement :=
  processStream elements Annotations.mkDefault.copy ""

/-- `TextManager.convert` on a single element (the form the dispatch
registry invokes): stream-process the one-element list. -/
def textManagerConvertSingle (e : PInline) : List NotionInlineElement :=
  processStream [e] Annotations.mkDefault ""

/-! ## Heading manager (managers/heading_manager.py) -/

/-- `HeadingManager.convert`: build a `Heading` from the raw level,
then add the inline conversion of the header content. -/
def headingManagerConvert : PBlock → Except PyError (List NBlock)
  | .header level content =>
    .ok [headingInit level (create_text_elements content)]
  | _ => .error .valueError

/-! ## Code manager (managers/code_manager.py) -/

/-- The `LANGUAGE_MAP` table. -/
def LANGUAGE_MAP : List (String × String) :=
  [("abap", "abap"), ("arduino", "arduino"), ("bash", "bash"),
   ("basic", "basic"), ("c", "c"), ("clojure", "clojure"),
   ("coffeescript", "coffeescript"), ("cpp", "c++"), ("c++", "c++"),
   ("csharp", "c#"), ("c#", "c#"), ("css", "css"), ("dart", "dart"),
   ("diff", "diff"), ("docker", "docker"), ("elixir", "elixir"),
   ("elm", "elm"), ("erlang", "erlang"), ("flow", "flow"),
   ("fortran", "fortran"), ("fsharp", "f#"), ("f#", "f#"),
   ("gherkin", "gherkin"), ("glsl", "glsl"), ("go", "go"),
   ("graphql", "graphql"), ("groovy", "groovy"),
   ("haskell", "haskell"), ("html", "html"), ("java", "java"),
   ("javascript", "javascript"), ("js", "javascript"),
   ("json", "json"), ("julia", "julia"), ("kotlin", "kotlin"),
   ("latex", "latex"), ("less", "less"), ("lisp", "lisp"),
   ("livescript", "livescript"), ("lua", "lua"),
   ("makefile", "makefile"), ("markdown", "markdown"),
   ("markup", "markup"), ("matlab", "matlab"), ("mermaid", "mermaid"),
   ("nix", "nix"), ("objective-c", "objective-c"), ("ocaml", "ocaml"),
   ("pascal", "pascal"), ("perl", "perl"), ("php", "php"),
   ("powershell", "powershell"), ("prolog", "prolog"),
   ("protobuf", "protobuf"), ("python", "python"), ("py", "python"),
   ("r", "r"), ("reason", "reason"), ("ruby", "ruby"),
   ("rust", "rust"), ("sass", "sass"), ("scala", "scala"),
   ("scheme", "scheme"), ("scss", "scss"), ("shell", "shell"),
   ("sql", "sql"), ("swift", "swift"), ("typescript", "typescript"),
   ("ts", "typescript"), ("vb", "visual basic"),
   ("vbnet", "visual basic"), ("verilog", "verilog"),
   ("vhdl", "vhdl"), ("xml", "xml"), ("yaml", "yaml"),
   ("sh", "bash"), ("zsh", "bash"), ("console", "shell"),
   ("terminal", "shell"), ("jsx", "javascript"),
   ("tsx", "typescript"), ("yml", "yaml"), ("plaintext", "plain text"),
   ("text", "plain text"), ("txt", "plain text")]

/-- Python `s.lower()` (ASCII case folding, which covers every key of
the table). -/
def pyLower (s : String) : String :=
  String.mk (s.toList.map Char.toLower)

/-- Association-list lookup mirroring `dict.get` with a default. -/
def dictGetD (m : List (String × String)) (key dflt : String) :
    String :=
  match m with
  | [] => dflt
  | (k, v) :: rest => if k == key then v else dictGetD rest key dflt

/-- `CodeManager._map_language` (`if not language` also catches the
empty string). -/
def map_language : Option String → String
  | none => "plain text"
  | some language =>
    if pyTruthy language = false then "plain text"
    else dictGetD LANGUAGE_MAP (pyLower language) "plain text"

/-- Python `x or y` over optional strings (`attributes.get("caption")
or attributes.get("filename")`). -/
def pyOrOpt (a b : Option String) : Option String :=
  match a with
  | some v => if pyTruthy v then some v else b
  | none => b

/-- `dict.get` over the attribute map. -/
def attrGet (m : List (String × String)) (key : String) :
    Option String :=
  match m with
  | [] => none
  | (k, v) :: rest => if k == key then some v else attrGet rest key

/-- `CodeManager.convert`. -/
def codeManagerConvert : PBlock → Except PyError (List NBlock)
  | .codeBlock classes attributes text =>
    .ok [.code text (map_language classes.head?)
      (pyOrOpt (attrGet attributes "caption")
        (attrGet attributes "filename"))]
  | _ => .error .valueError

/-! ## List manager (managers/list_manager.py) -/

/-- `ListManager._is_checkbox`. -/
def is_checkbox (text : String) : Bool :=
  pyStartswith text "☐" || pyStartswith text "☒"

/-- `ListManager._is_checked_checkbox`. -/
def is_checked_checkbox (text : String) : Bool :=
  pyStartswith text "☒"

/-- `ListManager._strip_checkbox`: drop the glyph and `lstrip` the
following whitespace inside the same string. -/
def strip_checkbox (text : String) : String :=
  if is_checkbox text then pyLstrip (pyDropSlice text 1) else text

/-- The removal of the single `Space` element that follows the
checkbox `Str` (`first_plain.content.pop(1)` under its guard). -/
def popLeadingSpace : List PInline → List PInline
  | .space :: tl => tl
  | restInl => restInl

/-- The checkbox-detection prelude of `_convert_list_item`: when the
item's first block is a `Plain` whose first inline is a checkbox-led
`Str`, report `(is_todo_item, is_checked)` and return the source
content with the glyph stripped from that `Str` and one immediately
following `Space` popped — the mutation the Python performs in place
on the input AST. -/
def stripItemCheckbox (content : List PBlock) :
    Bool × Bool × List PBlock :=
  match content with
  | .plain (PInline.str s :: restInl) :: restBlocks =>
    if is_checkbox s then
      (true, is_checked_checkbox s,
        .plain (.str (strip_checkbox s) :: popLeadingSpace restInl) ::
          restBlocks)
    else (false, false, content)
  | _ => (false, false, content)

mutual
/-- Constructor-counting size of a block (inline content and strings
count for nothing), the termination measure of the converter families:
the in-place checkbox stripping rewrites inline content only, so it
preserves this measure. -/
def pbSize : PBlock → Nat
  | .para _ => 1
  | .plain _ => 1
  | .header _ _ => 1
  | .codeBlock _ _ _ => 1
  | .blockQuote content => 1 + pbListSize content
  | .bulletList items => 1 + pbItemsSize items
  | .orderedList items => 1 + pbItemsSize items

/-- Size of a block list. -/
def pbListSize : List PBlock → Nat
  | [] => 0
  | b :: bs => 1 + pbSize b + pbListSize bs

/-- Size of a list of list items. -/
def pbItemsSize : List (List PBlock) → Nat
  | [] => 0
  | i :: is => 1 + pbListSize i + pbItemsSize is
end

mutual
/-- `ListManager.convert`, with the post-call state of the source
element returned alongside the result (the Python mutates the AST in
place). -/
def listManagerConvertS : PBlock → Except PyError (List NBlock) × PBlock
  | .bulletList items =>
    let r := convertListItems items "bulleted"
    (.ok [.nlist "bulleted_list_item" r.1], .bulletList r.2)
  | .orderedList items =>
    let r := convertListItems items "numbered"
    (.ok [.nlist "numbered_list_item" r.1], .orderedList r.2)
  | b => (.error .valueError, b)
termination_by b => (pbSize b, 0)
decreasing_by
  all_goals exact Prod.Lex.left _ _ (by simp [pbSize, pbItemsSize] <;> omega)

/-- The per-item loop of `_convert_bullet_list` /
`_convert_ordered_list`. -/
def convertListItems : List (List PBlock) → String →
    List NListItem × List (List PBlock)
  | [], _ => ([], [])
  | item :: rest, parent_type =>
    let r1 := convert_list_item item parent_type
    let r2 := convertListItems rest parent_type
    (r1.1 :: r2.1, r1.2 :: r2.2)
termination_by items _ => (pbItemsSize items, 3)
decreasing_by
  all_goals exact Prod.Lex.left _ _ (by simp [pbItemsSize] <;> omega)

/-- `ListManager._convert_list_item`: checkbox detection and
stripping, `ListItem` construction, then the content loop. -/
def convert_list_item (content : List PBlock) (parent_type : String) :
    NListItem × List PBlock
  :=
    let d := stripItemCheckbox content
    let item_type := if d.1 then "todo" else parent_type
    let r := listItemLoop d.2.2
    (.mk r.1 r.2.1 item_type
      (if item_type == "todo" then d.2.1 else false), r.2.2)
termination_by (pbListSize content, 2)
decreasing_by
  have h : pbListSize (stripItemCheckbox content).2.2 =
      pbListSize content := by
    cases content with
    | nil => rfl
    | cons b restBlocks =>
      cases b with
      | plain c =>
        cases c with
        | nil => rfl
        | cons i restInl =>
          cases i with
          | str t =>
            by_cases hcb : is_checkbox t
            · simp [stripItemCheckbox, hcb, pbListSize, pbSize]
            · simp [stripItemCheckbox, hcb]
          | space => rfl
          | softBreak => rfl
          | lineBreak => rfl
          | emph cs => rfl
          | strong cs => rfl
          | math d t => rfl
          | code t => rfl
          | link cs u => rfl
      | para c => rfl
      | header l c => rfl
      | blockQuote c => rfl
      | bulletList is => rfl
      | orderedList is => rfl
      | codeBlock cl a t => rfl
  rw [h]
  exact Prod.Lex.right _ (by omega)

/-- The content loop of `_convert_list_item`: `Plain` children feed
the item's rich text, nested bullet/ordered lists are converted
recursively and attached as child aggregates, anything else is
ignored. -/
def listItemLoop : List PBlock →
    List NotionInlineElement × List NBlock × List PBlock
  | [] => ([], [], [])
  | child :: rest =>
    match child with
    | .plain c =>
      let r := listItemLoop rest
      (create_text_elements c ++ r.1, r.2.1, .plain c :: r.2.2)
    | .bulletList items =>
      let rc := listManagerConvertS (.bulletList items)
      let r := listItemLoop rest
      (r.1,
        (match rc.1 with
         | .ok (nb :: _) => [nb]
         | _ => []) ++ r.2.1,
        rc.2 :: r.2.2)
    | .orderedList items =>
      let rc := listManagerConvertS (.orderedList items)
      let r := listItemLoop rest
      (r.1,
        (match rc.1 with
         | .ok (nb :: _) => [nb]
         | _ => []) ++ r.2.1,
        rc.2 :: r.2.2)
    | other =>
      let r := listItemLoop rest
      (r.1, r.2.1, other :: r.2.2)
termination_by content => (pbListSize content, 1)
decreasing_by
  all_goals exact Prod.Lex.left _ _ (by simp [pbListSize, pbSize] <;> omega)
end

/-- `ListManager.convert` without the state component (used by the
dispatch registry, where no caller re-reads the source tree). -/
def listManagerConvert (b : PBlock) : Except PyError (List NBlock) :=
  (listManagerConvertS b).1

/-- The `checked` field of a list item. -/
def NListItem.checked : NListItem → Bool
  | ⟨_, _, _, c⟩ => c

/-- The `text_content` field of a list item. -/
def NListItem.text_content : NListItem → List NotionInlineElement
  | ⟨tc, _, _, _⟩ => tc

/-- Does the item's first block fail the checkbox-detection shape
(first block a `Plain` whose first inline is a checkbox-led `Str`)? -/
def itemHeadClean : List PBlock → Bool
  | .plain (PInline.str s :: _) :: _ => !is_checkbox s
  | _ => true

mutual
/-- No checkbox-led item anywhere in this block (the region the list
converter's in-place stripping can reach). -/
def noCheckboxBlock : PBlock → Bool
  | .bulletList items => noCheckboxItems items
  | .orderedList items => noCheckboxItems items
  | _ => true

/-- No checkbox-led item in any of these items. -/
def noCheckboxItems : List (List PBlock) → Bool
  | [] => true
  | item :: rest => noCheckboxItem item && noCheckboxItems rest

/-- The item neither matches the checkbox-detection shape itself nor
contains a nested list that does. -/
def noCheckboxItem (content : List PBlock) : Bool :=
  itemHeadClean content && noCheckboxList content

/-- `noCheckboxBlock` over a block list. -/
def noCheckboxList : List PBlock → Bool
  | [] => true
  | b :: bs => noCheckboxBlock b && noCheckboxList bs
end

mutual
/-- Plain-text projection of an inline element as the engine renders
it: literal text for content tokens, raw math/code text (those flow
through the registered handlers), the `Str`-only concatenation for
links, recursion for formatting tokens. -/
def inlinePlainText : PInline → List Char
  | .str t => t.toList
  | .space => [' ']
  | .softBreak => ['\n']
  | .lineBreak => ['\n']
  | .math _ t => t.toList
  | .code t => t.toList
  | .link cs _ =>
    (cs.foldr (fun child acc =>
      match child with
      | .str t => t ++ acc
      | _ => acc) "").toList
  | .emph cs => inlinesPlainText cs
  | .strong cs => inlinesPlainText cs

/-- `inlinePlainText` over a sequence. -/
def inlinesPlainText : List PInline → List Char
  | [] => []
  | e :: rest => inlinePlainText e ++ inlinesPlainText rest
end

/-- The stored (already clamped) level of a heading block. -/
def NBlock.storedHeadingLevel : NBlock → Option Nat
  | .heading level _ => some level
  | _ => none

/-! ## Dispatch registry (registry.py, managers/registry_mixin.py) -/

/-- The six registered manager classes. -/
inductive ManagerId where
  | quoteM
  | headingM
  | codeM
  | listM
  | textM
  | paragraphM
deriving DecidableEq, Repr

/-- Each manager's `can_convert` predicate. -/
def managerCanConvert : ManagerId → PElement → Bool
  | .quoteM, .block (.blockQuote _) => true
  | .quoteM, _ => false
  | .headingM, .block (.header _ _) => true
  | .headingM, _ => false
  | .codeM, .block (.codeBlock _ _ _) => true
  | .codeM, _ => false
  | .listM, .block (.bulletList _) => true
  | .listM, .block (.orderedList _) => true
  | .listM, _ => false
  | .textM, e => textManager_can_convert e
  | .paragraphM, .block (.para _) => true
  | .paragraphM, _ => false

/-- `ManagerRegistry.register_manager`: append unless present. -/
def register_manager (managers : List ManagerId) (m : ManagerId) :
    List ManagerId :=
  if managers.contains m then managers else managers ++ [m]

/-- `ManagerRegistry.register_default_managers`: specialized block
converters first, `TextManager`, then `ParagraphManager` as the
fallback. -/
def default_managers : List ManagerId :=
  register_manager (register_manager (register_manager
    (register_manager (register_manager (register_manager []
      .quoteM) .headingM) .codeM) .listM) .textM) .paragraphM

/-- `ManagerRegistry.find_manager`: first registered manager whose
predicate matches, in registration order. -/
def find_manager : List ManagerId → PElement → Option ManagerId
  | [], _ => none
  | m :: rest, e =>
    if managerCanConvert m e then some m else find_manager rest e

/-- The heterogeneous result of `Manager.convert`: block managers
return model blocks, `TextManager` returns inline elements. -/
inductive Converted where
  | blocks (bs : List NBlock)
  | inlines (es : List NotionInlineElement)

/-- Which model classes carry a `text_content` attribute (the
`hasattr(converted[0], 'text_content')` check in
`QuoteManager._process_first_element`). -/
def blockHasTextContent : NBlock → Bool
  | .paragraph _ => true
  | .heading _ _ => true
  | .quote _ _ => true
  | _ => false

/-- The `text_content` of such a block. -/
def blockTextContent : NBlock → List NotionInlineElement
  | .paragraph tc => tc
  | .heading _ tc => tc
  | .quote tc _ => tc
  | _ => []

mutual
/-- Does the stream processor emit nothing for this inline element
(an empty `Str`, or formatting wrapping only such)?  Characterizes
when `create_text_elements` returns the empty list. -/
def streamEmptyInl : PInline → Bool
  | .str t => !(pyTruthy t)
  | .emph cs => streamEmptyList cs
  | .strong cs => streamEmptyList cs
  | _ => false

/-- `streamEmptyInl` over a sequence. -/
def streamEmptyList : List PInline → Bool
  | [] => true
  | e :: rest => streamEmptyInl e && streamEmptyList rest
end

/-! Sizes counting both block and inline structure: the termination
measure of the registry/quote/paragraph conversion family. -/

mutual
/-- Structural size of a block, inline content included. -/
def qbSize : PBlock → Nat
  | .para c => 1 + qiListSize c
  | .plain c => 1 + qiListSize c
  | .header _ c => 1 + qiListSize c
  | .codeBlock _ _ _ => 1
  | .blockQuote content => 1 + qbListSize content
  | .bulletList items => 1 + qbItemsSize items
  | .orderedList items => 1 + qbItemsSize items

/-- Size of a block list. -/
def qbListSize : List PBlock → Nat
  | [] => 0
  | b :: bs => 1 + qbSize b + qbListSize bs

/-- Size of a list of list items. -/
def qbItemsSize : List (List PBlock) → Nat
  | [] => 0
  | i :: is => 1 + qbListSize i + qbItemsSize is

/-- Structural size of an inline element. -/
def qiSize : PInline → Nat
  | .emph cs => 1 + qiListSize cs
  | .strong cs => 1 + qiListSize cs
  | .link cs _ => 1 + qiListSize cs
  | _ => 1

/-- Size of an inline list. -/
def qiListSize : List PInline → Nat
  | [] => 0
  | e :: rest => 1 + qiSize e + qiListSize rest
end

/-- Size of an element as the conversion family measures it. -/
def peSizeM : PElement → Nat
  | .block b => qbSize b
  | .inline i => qiSize i

/-! ## Quote manager, paragraph manager and registry conversion
(managers/quote_manager.py, managers/paragraph_manager.py,
registry.py) -/

/-- The fallback loop of `ParagraphManager.convert`: `Str`/`Space`
become bare `Text`s; any other element reaches the
`cls.has_manager_for(inline_elem)` test, but `has_manager_for` is
defined nowhere in the codebase (`Manager` and `RegistryMixin` offer
only `find_converter`/`find_manager`/`convert_with_manager`), so the
attribute access itself raises `AttributeError` before any registry
lookup can happen. -/
def paragraphFallback : List PInline →
    Except PyError (List NotionInlineElement)
  | [] => .ok []
  | e :: rest =>
    match e with
    | .str t =>
      (match paragraphFallback rest with
       | .ok ts => .ok (.text t Annotations.mkDefault none :: ts)
       | .error err => .error err)
    | .space =>
      (match paragraphFallback rest with
       | .ok ts => .ok (.text " " Annotations.mkDefault none :: ts)
       | .error err => .error err)
    | _ => .error .attributeError

/-- `ParagraphManager.convert` on the content of a `Para`: the inline
engine's output when non-empty, else the per-element fallback loop
(which raises `AttributeError` on any non-`Str`/`Space` element). -/
def paragraphConvert (c : List PInline) : Except PyError NBlock :=
  if (create_text_elements c).isEmpty = false then
    .ok (.paragraph (create_text_elements c))
  else
    match paragraphFallback c with
    | .ok ts => .ok (.paragraph ts)
    | .error err => .error err

mutual
/-- `QuoteManager.convert` on the content of a `BlockQuote` (the
type check lives in `managerConvert`): an empty blockquote returns
the bare quote at once (skipping the empty-text fixup); otherwise the
first element supplies the rich text, the rest become children, and
an empty rich text is replaced by a single empty `Text`. -/
def quoteManagerConvert : List PBlock → Except PyError (List NBlock)
  | [] => .ok [.quote [] []]
  | first :: rest =>
    match processFirstElement first with
    | .error err => .error err
    | .ok fr =>
      match quoteChildrenLoop rest with
      | .error err => .error err
      | .ok cs =>
        .ok [.quote
          (if (fr.1).isEmpty then
            [.text "" Annotations.mkDefault none]
          else fr.1)
          (fr.2 ++ cs)]
termination_by content => (qbListSize content, 0)
decreasing_by
  all_goals exact Prod.Lex.left _ _ (by simp [qbListSize, qbSize] <;> omega)

/-- `QuoteManager._process_first_element`, returning the texts and
children it adds to the quote.  panflute containers subclass
`MutableSequence`, not `list`, so the `isinstance(elem.content,
list)` guard is never true and conversion always goes through the
registry; the first converted block's `text_content` is stolen when
the attribute exists, otherwise the converted blocks become
children. -/
def processFirstElement (elem : PBlock) :
    Except PyError (List NotionInlineElement × List NBlock) :=
  match convertWithManagerB elem with
  | .error err => .error err
  | .ok converted =>
    match converted with
    | b :: _ =>
      if blockHasTextContent b then .ok (blockTextContent b, [])
      else .ok ([], converted)
    | [] => .ok ([], [])
termination_by (qbSize elem, 3)
decreasing_by
  exact Prod.Lex.right _ (by omega)

/-- The `for content in elem.content[1:]` loop of
`QuoteManager.convert`. -/
def quoteChildrenLoop : List PBlock → Except PyError (List NBlock)
  | [] => .ok []
  | elem :: rest =>
    match processChildElement elem with
    | .error err => .error err
    | .ok cs1 =>
      match quoteChildrenLoop rest with
      | .error err => .error err
      | .ok cs2 => .ok (cs1 ++ cs2)
termination_by elems => (qbListSize elems, 0)
decreasing_by
  all_goals exact Prod.Lex.left _ _ (by simp [qbListSize, qbSize] <;> omega)

/-- `QuoteManager._process_child_element`: nested blockquotes recurse
through the quote converter, everything else goes through the
registry; the converted blocks are appended as children. -/
def processChildElement (elem : PBlock) :
    Except PyError (List NBlock) :=
  match elem with
  | .blockQuote inner => quoteManagerConvert inner
  | other => convertWithManagerB other
termination_by (qbSize elem, 3)
decreasing_by
  all_goals first
    | exact Prod.Lex.right _ (by omega)
    | exact Prod.Lex.left _ _ (by simp [qbSize] <;> omega)

/-- `RegistryMixin.convert_with_manager` on a block element: no
manager or a caught `ValueError`/`TypeError` yields `[]`; other
exceptions propagate.  (No manager returns inline elements for a
block element, so the `Converted.inlines` case is unreachable.) -/
def convertWithManagerB (elem : PBlock) :
    Except PyError (List NBlock) :=
  match find_manager default_managers (.block elem) with
  | none => .ok []
  | some m =>
    match managerConvert m (.block elem) with
    | .ok (.blocks bs) => .ok bs
    | .ok (.inlines _) => .ok []
    | .error .valueError => .ok []
    | .error err => .error err
termination_by (qbSize elem, 2)
decreasing_by
  exact Prod.Lex.right _ (by simp [peSizeM] <;> omega)

/-- `RegistryMixin.convert_with_manager` on an inline element (the
paragraph fallback's call site). -/
def convertWithManagerI (i : PInline) :
    Except PyError (List NotionInlineElement) :=
  match find_manager default_managers (.inline i) with
  | none => .ok []
  | some m =>
    match managerConvert m (.inline i) with
    | .ok (.inlines es) => .ok es
    | .ok (.blocks _) => .ok []
    | .error .valueError => .ok []
    | .error err => .error err
termination_by (qiSize i, 2)
decreasing_by
  exact Prod.Lex.right _ (by simp [peSizeM] <;> omega)

/-- `Manager.convert` of each registered manager, dispatched on the
manager id; wrong element types raise `ValueError`. -/
def managerConvert : ManagerId → PElement →
    Except PyError Converted
  | .quoteM, .block (.blockQuote content) =>
    (match quoteManagerConvert content with
     | .ok bs => .ok (.blocks bs)
     | .error err => .error err)
  | .quoteM, _ => .error .valueError
  | .headingM, .block b =>
    (match headingManagerConvert b with
     | .ok bs => .ok (.blocks bs)
     | .error err => .error err)
  | .headingM, .inline _ => .error .valueError
  | .codeM, .block b =>
    (match codeManagerConvert b with
     | .ok bs => .ok (.blocks bs)
     | .error err => .error err)
  | .codeM, .inline _ => .error .valueError
  | .listM, .block b =>
    (match listManagerConvert b with
     | .ok bs => .ok (.blocks bs)
     | .error err => .error err)
  | .listM, .inline _ => .error .valueError
  | .textM, .inline i => .ok (.inlines (textManagerConvertSingle i))
  | .textM, .block _ => .ok (.inlines [])
  | .paragraphM, .block (.para c) =>
    (match paragraphConvert c with
     | .ok b => .ok (.blocks [b])
     | .error err => .error err)
  | .paragraphM, _ => .error .valueError
termination_by _ e => (peSizeM e, 1)
decreasing_by
  exact Prod.Lex.left _ _ (by simp [peSizeM, qbSize] <;> omega)
end

/-- `ManagerRegistry.convert_element`: raise `ValueError` when no
manager matches, else the first matching manager's `convert`. -/
def convert_element (managers : List ManagerId) (e : PElement) :
    Except PyError Converted :=
  match find_manager managers e with
  | none => .error .valueError
  | some m => managerConvert m e

/-! ## Theorems -/

theorem strToList_append (a b : String) :
    (a ++ b).toList = a.toList ++ b.toList := rfl

theorem pyTruthy_false_toList (s : String) (h : pyTruthy s = false) :
    s.data = [] := by
  simpa [pyTruthy, String.toList, List.isEmpty_iff] using h

theorem canMerge_key (x y1 y2 : NotionInlineElement)
    (h : mKey y1 = mKey y2) : canMerge x y1 = canMerge x y2 := by
  cases y1 <;> cases y2 <;> simp [mKey] at h <;>
    cases x <;> simp [canMerge]
  case text.text.text a1 l1 a2 l2 c1 a l c2 =>
    simp [h.1, h.2]

theorem mergeAux_merge_step (c1 c2 : String) (a1 a2 : Annotations)
    (l1 l2 : Option String) (rest : List NotionInlineElement)
    (hg : canMerge (.text c1 a1 l1) (.text c2 a2 l2) = true) :
    mergeAux (.text c1 a1 l1) (.text c2 a2 l2 :: rest) =
      mergeAux (.text (c1 ++ c2) a1 l1) rest := by
  simp only [canMerge] at hg
  simp [mergeAux, hg]

theorem mergeAux_skip_step (prev current : NotionInlineElement)
    (rest : List NotionInlineElement)
    (hg : canMerge prev current = false) :
    mergeAux prev (current :: rest) =
      prev :: mergeAux current rest := by
  cases prev <;> cases current <;>
    simp_all [canMerge, mergeAux]

theorem mergeAux_head (rest : List NotionInlineElement) :
    ∀ prev, ∃ h t, mergeAux prev rest = h :: t ∧
      mKey h = mKey prev := by
  induction rest with
  | nil =>
    intro prev
    exact ⟨prev, [], by simp [mergeAux], rfl⟩
  | cons current rest ih =>
    intro prev
    by_cases hg : canMerge prev current = true
    · cases prev with
      | text c1 a1 l1 =>
        cases current with
        | text c2 a2 l2 =>
          obtain ⟨h, t, heq, hk⟩ := ih (.text (c1 ++ c2) a1 l1)
          refine ⟨h, t, ?_, ?_⟩
          · rw [mergeAux_merge_step c1 c2 a1 a2 l1 l2 rest hg, heq]
          · simpa [mKey] using hk
        | equation e a => simp [canMerge] at hg
        | code t a => simp [canMerge] at hg
        | mention mt md a p => simp [canMerge] at hg
      | equation e a => cases current <;> simp [canMerge] at hg
      | code t a => cases current <;> simp [canMerge] at hg
      | mention mt md a p => cases current <;> simp [canMerge] at hg
    · have hg' : canMerge prev current = false := by simpa using hg
      exact ⟨prev, mergeAux current rest,
        by rw [mergeAux_skip_step prev current rest hg'], rfl⟩

theorem mergeAux_normal (rest : List NotionInlineElement) :
    ∀ prev, mergedNormal (mergeAux prev rest) = true := by
  induction rest with
  | nil => intro prev; simp [mergeAux, mergedNormal]
  | cons current rest ih =>
    intro prev
    by_cases hg : canMerge prev current = true
    · cases prev with
      | text c1 a1 l1 =>
        cases current with
        | text c2 a2 l2 =>
          rw [mergeAux_merge_step c1 c2 a1 a2 l1 l2 rest hg]
          exact ih (.text (c1 ++ c2) a1 l1)
        | equation e a => simp [canMerge] at hg
        | code t a => simp [canMerge] at hg
        | mention mt md a p => simp [canMerge] at hg
      | equation e a => cases current <;> simp [canMerge] at hg
      | code t a => cases current <;> simp [canMerge] at hg
      | mention mt md a p => cases current <;> simp [canMerge] at hg
    · have hg' : canMerge prev current = false := by simpa using hg
      rw [mergeAux_skip_step prev current rest hg']
      obtain ⟨h, t, heq, hk⟩ := mergeAux_head rest current
      have hcm : canMerge prev h = false := by
        rw [canMerge_key prev h current hk]
        exact hg'
      have ht := ih current
      rw [heq] at ht ⊢
      simp [mergedNormal, hcm, ht]

theorem mergeAux_id_of_normal (rest : List NotionInlineElement) :
    ∀ prev, mergedNormal (prev :: rest) = true →
      mergeAux prev rest = prev :: rest := by
  induction rest with
  | nil => intro prev _; simp [mergeAux]
  | cons current rest ih =>
    intro prev hn
    simp only [mergedNormal, Bool.and_eq_true, Bool.not_eq_true']
      at hn
    rw [mergeAux_skip_step prev current rest hn.1,
      ih current hn.2]

theorem mergeAux_plainConcat (rest : List NotionInlineElement) :
    ∀ prev, plainConcat (mergeAux prev rest) =
      prev.get_content.toList ++ plainConcat rest := by
  induction rest with
  | nil => intro prev; simp [mergeAux, plainConcat]
  | cons current rest ih =>
    intro prev
    by_cases hg : canMerge prev current = true
    · cases prev with
      | text c1 a1 l1 =>
        cases current with
        | text c2 a2 l2 =>
          rw [mergeAux_merge_step c1 c2 a1 a2 l1 l2 rest hg,
            ih (.text (c1 ++ c2) a1 l1)]
          simp [NotionInlineElement.get_content, plainConcat,
            strToList_append]
        | equation e a => simp [canMerge] at hg
        | code t a => simp [canMerge] at hg
        | mention mt md a p => simp [canMerge] at hg
      | equation e a => cases current <;> simp [canMerge] at hg
      | code t a => cases current <;> simp [canMerge] at hg
      | mention mt md a p => cases current <;> simp [canMerge] at hg
    · have hg' : canMerge prev current = false := by simpa using hg
      rw [mergeAux_skip_step prev current rest hg']
      simp [plainConcat, List.foldr_cons] at ih ⊢
      rw [ih current]

theorem mergeAux_filter_nonText (rest : List NotionInlineElement) :
    ∀ prev, (mergeAux prev rest).filter (fun e => !isTextElement e) =
      (prev :: rest).filter (fun e => !isTextElement e) := by
  induction rest with
  | nil => intro prev; simp [mergeAux]
  | cons current rest ih =>
    intro prev
    by_cases hg : canMerge prev current = true
    · cases prev with
      | text c1 a1 l1 =>
        cases current with
        | text c2 a2 l2 =>
          rw [mergeAux_merge_step c1 c2 a1 a2 l1 l2 rest hg,
            ih (.text (c1 ++ c2) a1 l1)]
          simp [isTextElement]
        | equation e a => simp [canMerge] at hg
        | code t a => simp [canMerge] at hg
        | mention mt md a p => simp [canMerge] at hg
      | equation e a => cases current <;> simp [canMerge] at hg
      | code t a => cases current <;> simp [canMerge] at hg
      | mention mt md a p => cases current <;> simp [canMerge] at hg
    · have hg' : canMerge prev current = false := by simpa using hg
      rw [mergeAux_skip_step prev current rest hg']
      rw [List.filter_cons, List.filter_cons, ih current]

theorem plainConcat_append (l1 l2 : List NotionInlineElement) :
    plainConcat (l1 ++ l2) = plainConcat l1 ++ plainConcat l2 := by
  induction l1 with
  | nil => simp [plainConcat]
  | cons e rest ih =>
    simp [plainConcat, List.foldr_cons] at ih ⊢
    rw [ih]

theorem plainConcat_flushText (cur : String) (ann : Annotations) :
    plainConcat (flushText cur ann) = cur.toList := by
  by_cases h : pyTruthy cur
  · simp [flushText, h, plainConcat, NotionInlineElement.get_content]
  · have h' : pyTruthy cur = false := by simpa using h
    simp [flushText, h', plainConcat, String.toList,
      pyTruthy_false_toList cur h']

theorem textManager_can_convert_inline_true (i : PInline) :
    textManager_can_convert (.inline i) = true := by
  cases i <;>
    simp [textManager_can_convert, textManagerCanConvertInline,
      inlineElementConvert]

theorem handler_content (e : PInline) (a : Annotations)
    (el : NotionInlineElement) (h : inlineElementConvert e a = some el) :
    el.get_content.data = inlinePlainText e := by
  cases e <;> simp [inlineElementConvert] at h <;> subst h <;>
    rfl

theorem plainConcat_processStream (elems : List PInline)
    (ann : Annotations) (cur : String) :
    plainConcat (processStream elems ann cur) =
      cur.toList ++ inlinesPlainText elems := by
  induction elems, ann, cur using processStream.induct with
  | case1 ann cur =>
    simp [processStream, plainConcat_flushText, inlinesPlainText]
  | case2 elem rest ann cur hcc ih =>
    exact absurd (textManager_can_convert_inline_true elem)
      (by simp [hcc])
  | case3 elem rest ann cur hcc el hel ih =>
    rw [processStream,
      if_neg (by simp [textManager_can_convert_inline_true elem])]
    simp only [hel]
    rw [plainConcat_append, plainConcat_append, plainConcat_flushText,
      ih]
    have hc := handler_content elem ann.copy el hel
    simp [plainConcat, inlinesPlainText, hc, List.append_assoc]
    all_goals intros
    all_goals subst_vars
    all_goals simp [inlineElementConvert] at hel
  | case4 rest ann cur t hcc hnone ih =>
    rw [processStream,
      if_neg (by simp [textManager_can_convert_inline_true
        (PInline.str t)])]
    simp only [hnone]
    rw [ih]
    simp [strToList_append, inlinesPlainText, inlinePlainText,
      List.append_assoc]
  | case5 rest ann cur hcc hnone ih =>
    rw [processStream,
      if_neg (by simp [textManager_can_convert_inline_true
        PInline.space])]
    simp only [hnone]
    rw [ih]
    simp [strToList_append, inlinesPlainText, inlinePlainText,
      List.append_assoc]
  | case6 rest ann cur hcc hnone ih =>
    rw [processStream,
      if_neg (by simp [textManager_can_convert_inline_true
        PInline.softBreak])]
    simp only [hnone]
    rw [ih]
    simp [strToList_append, inlinesPlainText, inlinePlainText,
      List.append_assoc]
  | case7 rest ann cur hcc hnone ih =>
    rw [processStream,
      if_neg (by simp [textManager_can_convert_inline_true
        PInline.lineBreak])]
    simp only [hnone]
    rw [ih]
    simp [strToList_append, inlinesPlainText, inlinePlainText,
      List.append_assoc]
  | case8 rest ann cur cs fc hcc hnone ihcs ihrest =>
    rw [processStream,
      if_neg (by simp [textManager_can_convert_inline_true
        (PInline.emph cs)])]
    simp only [hnone]
    rw [plainConcat_append, plainConcat_append]
    have ihcs' := ihcs
    unfold_let fc at ihcs'
    by_cases hfc : (apply_formatting (.emph cs) ann).2 = true
    · rw [dif_pos hfc] at ihcs'
      by_cases htr : pyTruthy cur
      · simp only [hfc, htr, Bool.and_self, if_true]
        rw [plainConcat_flushText, ihcs', ihrest]
        simp [inlinesPlainText, inlinePlainText, List.append_assoc]
      · have htr' : pyTruthy cur = false := by simpa using htr
        simp only [hfc, htr', Bool.and_false, Bool.false_eq_true,
          if_false, if_true]
        rw [ihcs', ihrest]
        simp [inlinesPlainText, inlinePlainText, plainConcat,
          String.toList, pyTruthy_false_toList cur htr']
    · have hfc' : (apply_formatting (.emph cs) ann).2 = false := by
        simpa using hfc
      rw [dif_neg (by simp [hfc'])] at ihcs'
      simp only [hfc', Bool.false_and, Bool.false_eq_true, if_false]
      rw [ihcs', ihrest]
      simp [inlinesPlainText, inlinePlainText, plainConcat,
        List.append_assoc]
  | case9 rest ann cur cs fc hcc hnone ihcs ihrest =>
    rw [processStream,
      if_neg (by simp [textManager_can_convert_inline_true
        (PInline.strong cs)])]
    simp only [hnone]
    rw [plainConcat_append, plainConcat_append]
    have ihcs' := ihcs
    unfold_let fc at ihcs'
    by_cases hfc : (apply_formatting (.strong cs) ann).2 = true
    · rw [dif_pos hfc] at ihcs'
      by_cases htr : pyTruthy cur
      · simp only [hfc, htr, Bool.and_self, if_true]
        rw [plainConcat_flushText, ihcs', ihrest]
        simp [inlinesPlainText, inlinePlainText, List.append_assoc]
      · have htr' : pyTruthy cur = false := by simpa using htr
        simp only [hfc, htr', Bool.and_false, Bool.false_eq_true,
          if_false, if_true]
        rw [ihcs', ihrest]
        simp [inlinesPlainText, inlinePlainText, plainConcat,
          String.toList, pyTruthy_false_toList cur htr']
    · have hfc' : (apply_formatting (.strong cs) ann).2 = false := by
        simpa using hfc
      rw [dif_neg (by simp [hfc'])] at ihcs'
      simp only [hfc', Bool.false_and, Bool.false_eq_true, if_false]
      rw [ihcs', ihrest]
      simp [inlinesPlainText, inlinePlainText, plainConcat,
        List.append_assoc]
  | case10 elem rest ann cur ih =>
    cases elem <;> simp_all [inlineElementConvert]

theorem stripItemCheckbox_clean (content : List PBlock)
    (h : itemHeadClean content = true) :
    stripItemCheckbox content = (false, false, content) := by
  cases content with
  | nil => rfl
  | cons b restBlocks =>
    cases b with
    | plain c =>
      cases c with
      | nil => rfl
      | cons i restInl =>
        cases i with
        | str t =>
          have hcb : is_checkbox t = false := by
            simpa [itemHeadClean] using h
          simp [stripItemCheckbox, hcb]
        | space => rfl
        | softBreak => rfl
        | lineBreak => rfl
        | emph cs => rfl
        | strong cs => rfl
        | math d t => rfl
        | code t => rfl
        | link cs u => rfl
    | para c => rfl
    | header l c => rfl
    | blockQuote c => rfl
    | bulletList is => rfl
    | orderedList is => rfl
    | codeBlock cl a t => rfl

theorem listManagerConvertS_frame :
    ∀ b : PBlock, noCheckboxBlock b = true →
      (listManagerConvertS b).2 = b := by
  refine listManagerConvertS.induct
    (fun b => noCheckboxBlock b = true → (listManagerConvertS b).2 = b)
    (fun items parent_type => noCheckboxItems items = true →
      (convertListItems items parent_type).2 = items)
    (fun content parent_type => noCheckboxItem content = true →
      (convert_list_item content parent_type).2 = content)
    (fun content => noCheckboxList content = true →
      (listItemLoop content).2.2 = content)
    ?_ ?_ ?_ ?_ ?_ ?_ ?_ ?_ ?_ ?_ ?_
  · intro items ih h
    rw [listManagerConvertS]
    simp only
    rw [ih (by simpa [noCheckboxBlock] using h)]
  · intro items ih h
    rw [listManagerConvertS]
    simp only
    rw [ih (by simpa [noCheckboxBlock] using h)]
  · intro b hne1 hne2 h
    cases b with
    | bulletList items => exact absurd rfl (hne1 items)
    | orderedList items => exact absurd rfl (hne2 items)
    | para c => simp [listManagerConvertS]
    | plain c => simp [listManagerConvertS]
    | header l c => simp [listManagerConvertS]
    | blockQuote c => simp [listManagerConvertS]
    | codeBlock cl a t => simp [listManagerConvertS]
  · intro x h
    simp [convertListItems]
  · intro item rest parent_type ih3 ih2 h
    simp only [noCheckboxItems, Bool.and_eq_true] at h
    simp only [convertListItems]
    rw [ih3 h.1, ih2 h.2]
  · intro content parent_type d ih4 h
    simp only [noCheckboxItem, Bool.and_eq_true] at h
    have hd : stripItemCheckbox content = (false, false, content) :=
      stripItemCheckbox_clean content h.1
    unfold_let d at ih4
    rw [hd] at ih4
    simp only [convert_list_item, hd]
    exact ih4 h.2
  · intro h
    simp [listItemLoop]
  · intro bs c ih h
    simp only [noCheckboxList, Bool.and_eq_true] at h
    simp only [listItemLoop]
    rw [ih h.2]
  · intro bs items ih1 ih4 h
    simp only [noCheckboxList, Bool.and_eq_true] at h
    simp only [listItemLoop]
    rw [ih1 h.1, ih4 h.2]
  · intro bs items ih1 ih4 h
    simp only [noCheckboxList, Bool.and_eq_true] at h
    simp only [listItemLoop]
    rw [ih1 h.1, ih4 h.2]
  · intro bs other hne1 hne2 hne3 ih h
    simp only [noCheckboxList, Bool.and_eq_true] at h
    cases other with
    | plain c => exact absurd rfl (hne1 c)
    | bulletList items => exact absurd rfl (hne2 items)
    | orderedList items => exact absurd rfl (hne3 items)
    | para c =>
      simp only [listItemLoop]
      rw [ih h.2]
    | header l c =>
      simp only [listItemLoop]
      rw [ih h.2]
    | blockQuote c =>
      simp only [listItemLoop]
      rw [ih h.2]
    | codeBlock cl a t =>
      simp only [listItemLoop]
      rw [ih h.2]

theorem glyph_open_not_checked (s : String)
    (h : pyStartswith s "☐" = true) : pyStartswith s "☒" = false := by
  obtain ⟨l⟩ := s
  cases l with
  | nil => exact absurd h (by decide)
  | cons c cs =>
    have e1 : ("☐".toList) = ['☐'] := rfl
    have e2 : ("☒".toList) = ['☒'] := rfl
    have e3 : (String.mk (c :: cs)).toList = c :: cs := rfl
    rw [pyStartswith, e1, e3] at h
    rw [pyStartswith, e2, e3]
    simp only [matchesAt, Bool.and_true, beq_iff_eq] at h
    subst h
    simp [matchesAt]

theorem pyTruthy_append (a b : String) :
    pyTruthy (a ++ b) = (pyTruthy a || pyTruthy b) := by
  obtain ⟨la⟩ := a
  obtain ⟨lb⟩ := b
  have hmk : (String.mk la ++ String.mk lb) = String.mk (la ++ lb) :=
    rfl
  rw [hmk]
  cases la <;> simp [pyTruthy, String.toList, List.isEmpty]

theorem processStream_empty_iff (elems : List PInline)
    (ann : Annotations) (cur : String) :
    processStream elems ann cur = [] ↔
      (pyTruthy cur = false ∧ streamEmptyList elems = true) := by
  induction elems, ann, cur using processStream.induct with
  | case1 ann cur =>
    by_cases h : pyTruthy cur <;>
      simp [processStream, flushText, h, streamEmptyList]
  | case2 elem rest ann cur hcc ih =>
    exact absurd (textManager_can_convert_inline_true elem)
      (by simp [hcc])
  | case3 elem rest ann cur hcc el hel ih =>
    rw [processStream,
      if_neg (by simp [textManager_can_convert_inline_true elem])]
    simp only [hel]
    have hse : streamEmptyInl elem = false := by
      cases elem <;>
        first
          | rfl
          | simp [inlineElementConvert] at hel
    simp [streamEmptyList, hse, flushText]
    all_goals intros
    all_goals subst_vars
    all_goals simp [inlineElementConvert] at hel
  | case4 rest ann cur t hcc hnone ih =>
    rw [processStream,
      if_neg (by simp [textManager_can_convert_inline_true
        (PInline.str t)])]
    simp only [hnone]
    rw [ih]
    simp [pyTruthy_append, streamEmptyList, streamEmptyInl,
      Bool.or_eq_false_iff]
    tauto
  | case5 rest ann cur hcc hnone ih =>
    rw [processStream,
      if_neg (by simp [textManager_can_convert_inline_true
        PInline.space])]
    simp only [hnone]
    rw [ih]
    have : pyTruthy " " = true := rfl
    simp [pyTruthy_append, streamEmptyList, streamEmptyInl, this]
  | case6 rest ann cur hcc hnone ih =>
    rw [processStream,
      if_neg (by simp [textManager_can_convert_inline_true
        PInline.softBreak])]
    simp only [hnone]
    rw [ih]
    have : pyTruthy "\n" = true := rfl
    simp [pyTruthy_append, streamEmptyList, streamEmptyInl, this]
  | case7 rest ann cur hcc hnone ih =>
    rw [processStream,
      if_neg (by simp [textManager_can_convert_inline_true
        PInline.lineBreak])]
    simp only [hnone]
    rw [ih]
    have : pyTruthy "\n" = true := rfl
    simp [pyTruthy_append, streamEmptyList, streamEmptyInl, this]
  | case8 rest ann cur cs fc hcc hnone ihcs ihrest =>
    rw [processStream,
      if_neg (by simp [textManager_can_convert_inline_true
        (PInline.emph cs)])]
    simp only [hnone]
    have ihcs' := ihcs
    unfold_let fc at ihcs'
    by_cases hfc : (apply_formatting (.emph cs) ann).2 = true
    · rw [dif_pos hfc] at ihcs'
      by_cases htr : pyTruthy cur
      · simp [hfc, htr, flushText, streamEmptyList, streamEmptyInl]
      · have htr' : pyTruthy cur = false := by simpa using htr
        simp [hfc, htr', ihcs', ihrest, streamEmptyList,
          streamEmptyInl, show pyTruthy "" = false from rfl]
    · have hfc' : (apply_formatting (.emph cs) ann).2 = false := by
        simpa using hfc
      rw [dif_neg (by simp [hfc'])] at ihcs'
      simp [hfc', ihcs', ihrest, streamEmptyList, streamEmptyInl]
      tauto
  | case9 rest ann cur cs fc hcc hnone ihcs ihrest =>
    rw [processStream,
      if_neg (by simp [textManager_can_convert_inline_true
        (PInline.strong cs)])]
    simp only [hnone]
    have ihcs' := ihcs
    unfold_let fc at ihcs'
    by_cases hfc : (apply_formatting (.strong cs) ann).2 = true
    · rw [dif_pos hfc] at ihcs'
      by_cases htr : pyTruthy cur
      · simp [hfc, htr, flushText, streamEmptyList, streamEmptyInl]
      · have htr' : pyTruthy cur = false := by simpa using htr
        simp [hfc, htr', ihcs', ihrest, streamEmptyList,
          streamEmptyInl, show pyTruthy "" = false from rfl]
    · have hfc' : (apply_formatting (.strong cs) ann).2 = false := by
        simpa using hfc
      rw [dif_neg (by simp [hfc'])] at ihcs'
      simp [hfc', ihcs', ihrest, streamEmptyList, streamEmptyInl]
      tauto
  | case10 elem rest ann cur ih =>
    cases elem <;> simp_all [inlineElementConvert]

theorem plainConcat_create_text_elements (elements : List PInline) :
    plainConcat (create_text_elements elements) =
      inlinesPlainText elements := by
  simpa [create_text_elements, Annotations.copy] using
    plainConcat_processStream elements Annotations.mkDefault.copy ""

theorem find_manager_inline (i : PInline) :
    find_manager default_managers (.inline i) = some .textM := by
  have h := textManager_can_convert_inline_true i
  simp [default_managers, register_manager, find_manager,
    managerCanConvert, h]

theorem find_manager_para (c : List PInline) :
    find_manager default_managers (.block (.para c)) =
      some .paragraphM := rfl

theorem convertWithManagerI_eq (i : PInline) :
    convertWithManagerI i = .ok (textManagerConvertSingle i) := by
  rw [convertWithManagerI, find_manager_inline i]
  simp [managerConvert]

theorem paragraphFallback_noVE (c : List PInline) :
    paragraphFallback c ≠ .error .valueError := by
  induction c with
  | nil => simp [paragraphFallback]
  | cons e rest ih =>
    cases e with
    | str t =>
      cases hr : paragraphFallback rest with
      | ok ts => simp [paragraphFallback, hr]
      | error err =>
        have hne : err ≠ .valueError := fun h => ih (h ▸ hr)
        simp [paragraphFallback, hr, hne]
    | space =>
      cases hr : paragraphFallback rest with
      | ok ts => simp [paragraphFallback, hr]
      | error err =>
        have hne : err ≠ .valueError := fun h => ih (h ▸ hr)
        simp [paragraphFallback, hr, hne]
    | softBreak => simp [paragraphFallback]
    | lineBreak => simp [paragraphFallback]
    | math d t => simp [paragraphFallback]
    | code t => simp [paragraphFallback]
    | link cs u => simp [paragraphFallback]
    | emph cs => simp [paragraphFallback]
    | strong cs => simp [paragraphFallback]

theorem paragraphConvert_noVE (c : List PInline) :
    paragraphConvert c ≠ .error .valueError := by
  by_cases he : (create_text_elements c).isEmpty = false
  · simp [paragraphConvert, he]
  · cases hf : paragraphFallback c with
    | ok ts => simp [paragraphConvert, he, hf]
    | error err =>
      have hne : err ≠ .valueError :=
        fun h => paragraphFallback_noVE c (h ▸ hf)
      simp [paragraphConvert, he, hf, hne]

theorem headingManagerConvert_noattr (b : PBlock) :
    headingManagerConvert b ≠ .error .attributeError := by
  cases b <;> simp [headingManagerConvert]

theorem codeManagerConvert_noattr (b : PBlock) :
    codeManagerConvert b ≠ .error .attributeError := by
  cases b <;> simp [codeManagerConvert]

theorem listManagerConvert_noattr (b : PBlock) :
    listManagerConvert b ≠ .error .attributeError := by
  cases b <;> simp [listManagerConvert, listManagerConvertS]

/-- `convert_with_manager` on a block element never yields the
registry's typed `ValueError`: a missing manager and a caught
`ValueError`/`TypeError` both give `[]`, and only other exceptions
propagate. -/
theorem convertWithManagerB_noVE (elem : PBlock) :
    convertWithManagerB elem ≠ .error .valueError := by
  cases hf : find_manager default_managers (.block elem) with
  | none => simp [convertWithManagerB, hf]
  | some m =>
    cases hmc : managerConvert m (.block elem) with
    | ok conv =>
      cases conv <;> simp [convertWithManagerB, hf, hmc]
    | error err =>
      cases err <;> simp [convertWithManagerB, hf, hmc]

theorem processFirstElement_noVE (elem : PBlock) :
    processFirstElement elem ≠ .error .valueError := by
  cases hcw : convertWithManagerB elem with
  | ok converted =>
    cases converted with
    | nil => simp [processFirstElement, hcw]
    | cons b tail =>
      by_cases hT : blockHasTextContent b <;>
        simp [processFirstElement, hcw, hT]
  | error err =>
    have hne : err ≠ .valueError :=
      fun h => convertWithManagerB_noVE elem (h ▸ hcw)
    simp [processFirstElement, hcw, hne]

mutual
/-- The quote converter never raises the registry's typed
`ValueError`: every error it propagates came past a
`convert_with_manager` catch. -/
theorem quoteManagerConvert_noVE (content : List PBlock) :
    quoteManagerConvert content ≠ .error .valueError := by
  cases content with
  | nil => simp [quoteManagerConvert]
  | cons first rest =>
    cases hfr : processFirstElement first with
    | error err =>
      have hne : err ≠ .valueError :=
        fun h => processFirstElement_noVE first (h ▸ hfr)
      simp [quoteManagerConvert, hfr, hne]
    | ok fr =>
      cases hcs : quoteChildrenLoop rest with
      | error err =>
        have hne : err ≠ .valueError :=
          fun h => quoteChildrenLoop_noVE rest (h ▸ hcs)
        simp [quoteManagerConvert, hfr, hcs, hne]
      | ok cs => simp [quoteManagerConvert, hfr, hcs]
termination_by (qbListSize content, 0)
decreasing_by
  all_goals exact Prod.Lex.left _ _ (by simp [qbListSize, qbSize] <;> omega)

/-- The quote child loop never raises `ValueError`. -/
theorem quoteChildrenLoop_noVE (elems : List PBlock) :
    quoteChildrenLoop elems ≠ .error .valueError := by
  cases elems with
  | nil => simp [quoteChildrenLoop]
  | cons elem rest =>
    cases h1 : processChildElement elem with
    | error err =>
      have hne : err ≠ .valueError :=
        fun h => processChildElement_noVE elem (h ▸ h1)
      simp [quoteChildrenLoop, h1, hne]
    | ok cs1 =>
      cases h2 : quoteChildrenLoop rest with
      | error err =>
        have hne : err ≠ .valueError :=
          fun h => quoteChildrenLoop_noVE rest (h ▸ h2)
        simp [quoteChildrenLoop, h1, h2, hne]
      | ok cs2 => simp [quoteChildrenLoop, h1, h2]
termination_by (qbListSize elems, 0)
decreasing_by
  all_goals exact Prod.Lex.left _ _ (by simp [qbListSize, qbSize] <;> omega)

/-- `_process_child_element` never raises `ValueError`. -/
theorem processChildElement_noVE (elem : PBlock) :
    processChildElement elem ≠ .error .valueError := by
  cases elem with
  | blockQuote inner =>
    have h := quoteManagerConvert_noVE inner
    rw [processChildElement]
    exact h
  | para c =>
    have h := convertWithManagerB_noVE (.para c)
    simp only [processChildElement]
    exact h
  | plain c =>
    have h := convertWithManagerB_noVE (.plain c)
    simp only [processChildElement]
    exact h
  | header l c =>
    have h := convertWithManagerB_noVE (.header l c)
    simp only [processChildElement]
    exact h
  | codeBlock cl a t =>
    have h := convertWithManagerB_noVE (.codeBlock cl a t)
    simp only [processChildElement]
    exact h
  | bulletList items =>
    have h := convertWithManagerB_noVE (.bulletList items)
    simp only [processChildElement]
    exact h
  | orderedList items =>
    have h := convertWithManagerB_noVE (.orderedList items)
    simp only [processChildElement]
    exact h
termination_by (qbSize elem, 3)
decreasing_by
  exact Prod.Lex.left _ _ (by simp [qbSize] <;> omega)
end

/-- A manager whose predicate matched never raises the registry's
typed `ValueError` (it may still raise `AttributeError`, as the
paragraph fallback does on non-`Str`/`Space` elements). -/
theorem managerConvert_noVE_of_canConvert (m : ManagerId)
    (e : PElement) (hcan : managerCanConvert m e = true) :
    managerConvert m e ≠ .error .valueError := by
  cases m with
  | quoteM =>
    cases e with
    | block b =>
      cases b with
      | blockQuote content =>
        cases hq : quoteManagerConvert content with
        | ok bs => simp [managerConvert, hq]
        | error err =>
          have hne : err ≠ .valueError :=
            fun h => quoteManagerConvert_noVE content (h ▸ hq)
          simp [managerConvert, hq, hne]
      | para c => simp [managerCanConvert] at hcan
      | plain c => simp [managerCanConvert] at hcan
      | header l c => simp [managerCanConvert] at hcan
      | codeBlock cl a t => simp [managerCanConvert] at hcan
      | bulletList items => simp [managerCanConvert] at hcan
      | orderedList items => simp [managerCanConvert] at hcan
    | inline i => simp [managerCanConvert] at hcan
  | headingM =>
    cases e with
    | block b =>
      cases b with
      | header l c =>
        simp [managerConvert, headingManagerConvert]
      | para c => simp [managerCanConvert] at hcan
      | plain c => simp [managerCanConvert] at hcan
      | codeBlock cl a t => simp [managerCanConvert] at hcan
      | blockQuote content => simp [managerCanConvert] at hcan
      | bulletList items => simp [managerCanConvert] at hcan
      | orderedList items => simp [managerCanConvert] at hcan
    | inline i => simp [managerCanConvert] at hcan
  | codeM =>
    cases e with
    | block b =>
      cases b with
      | codeBlock cl a t =>
        simp [managerConvert, codeManagerConvert]
      | para c => simp [managerCanConvert] at hcan
      | plain c => simp [managerCanConvert] at hcan
      | header l c => simp [managerCanConvert] at hcan
      | blockQuote content => simp [managerCanConvert] at hcan
      | bulletList items => simp [managerCanConvert] at hcan
      | orderedList items => simp [managerCanConvert] at hcan
    | inline i => simp [managerCanConvert] at hcan
  | listM =>
    cases e with
    | block b =>
      cases b with
      | bulletList items =>
        simp [managerConvert, listManagerConvert,
          listManagerConvertS]
      | orderedList items =>
        simp [managerConvert, listManagerConvert,
          listManagerConvertS]
      | para c => simp [managerCanConvert] at hcan
      | plain c => simp [managerCanConvert] at hcan
      | header l c => simp [managerCanConvert] at hcan
      | codeBlock cl a t => simp [managerCanConvert] at hcan
      | blockQuote content => simp [managerCanConvert] at hcan
    | inline i => simp [managerCanConvert] at hcan
  | textM =>
    cases e with
    | block b =>
      simp [managerCanConvert, textManager_can_convert] at hcan
    | inline i => simp [managerConvert]
  | paragraphM =>
    cases e with
    | block b =>
      cases b with
      | para c =>
        cases hp : paragraphConvert c with
        | ok b => simp [managerConvert, hp]
        | error err =>
          have hne : err ≠ .valueError :=
            fun h => paragraphConvert_noVE c (h ▸ hp)
          simp [managerConvert, hp, hne]
      | plain c => simp [managerCanConvert] at hcan
      | header l c => simp [managerCanConvert] at hcan
      | codeBlock cl a t => simp [managerCanConvert] at hcan
      | blockQuote content => simp [managerCanConvert] at hcan
      | bulletList items => simp [managerCanConvert] at hcan
      | orderedList items => simp [managerCanConvert] at hcan
    | inline i => simp [managerCanConvert] at hcan

theorem find_manager_none_iff (ms : List ManagerId) (e : PElement) :
    find_manager ms e = none ↔
      ∀ m ∈ ms, managerCanConvert m e = false := by
  induction ms with
  | nil => simp [find_manager]
  | cons a rest ih =>
    by_cases h : managerCanConvert a e = true
    · simp [find_manager, h]
    · have h' : managerCanConvert a e = false := by
        simpa using h
      simp [find_manager, h', ih]

theorem find_manager_some_iff (ms : List ManagerId) (e : PElement)
    (m : ManagerId) :
    find_manager ms e = some m ↔
      ∃ pre post, ms = pre ++ m :: post ∧
        managerCanConvert m e = true ∧
        ∀ m' ∈ pre, managerCanConvert m' e = false := by
  induction ms with
  | nil => simp [find_manager]
  | cons a rest ih =>
    by_cases h : managerCanConvert a e = true
    · simp only [find_manager, if_pos h]
      constructor
      · intro hsome
        have ham : a = m := by simpa using hsome
        subst ham
        exact ⟨[], rest, rfl, h, by simp⟩
      · rintro ⟨pre, post, heq, hm, hpre⟩
        cases pre with
        | nil =>
          simp only [List.nil_append, List.cons.injEq] at heq
          simp [heq.1]
        | cons p ps =>
          simp only [List.cons_append, List.cons.injEq] at heq
          exact absurd h (by simp [heq.1 ▸ hpre p (by simp)])
    · have h' : managerCanConvert a e = false := by simpa using h
      simp only [find_manager, if_neg h]
      rw [ih]
      constructor
      · rintro ⟨pre, post, heq, hm, hpre⟩
        refine ⟨a :: pre, post, by simp [heq], hm, ?_⟩
        intro m' hm'
        rcases List.mem_cons.1 hm' with rfl | hmem
        · exact h'
        · exact hpre m' hmem
      · rintro ⟨pre, post, heq, hm, hpre⟩
        cases pre with
        | nil =>
          simp only [List.nil_append, List.cons.injEq] at heq
          exact absurd hm (by simp [← heq.1, h'])
        | cons p ps =>
          simp only [List.cons_append, List.cons.injEq] at heq
          refine ⟨ps, post, heq.2, hm, ?_⟩
          intro m' hm'
          exact hpre m' (by simp [hm'])

/-- C9: the registry's top-level `convert_element` raises its typed
error exactly when no registered predicate matches the element; when
one matches, the manager used is the first match in registration
order of the default registry, whose order is quote, heading, code,
list, text, paragraph. -/
theorem claim_C9_registry_dispatch (e : PElement) :
    (convert_element default_managers e = .error .valueError ↔
      ∀ m ∈ default_managers, managerCanConvert m e = false) ∧
    (∀ m, find_manager default_managers e = some m →
      managerCanConvert m e = true ∧
      (∃ pre post, default_managers = pre ++ m :: post ∧
        ∀ m' ∈ pre, managerCanConvert m' e = false) ∧
      convert_element default_managers e = managerConvert m e) ∧
    default_managers =
      [.quoteM, .headingM, .codeM, .listM, .textM, .paragraphM] := by
  refine ⟨?_, ?_, rfl⟩
  · constructor
    · intro herr
      rw [← find_manager_none_iff]
      cases hf : find_manager default_managers e with
      | none => rfl
      | some m =>
        obtain ⟨pre0, post0, heq0, hcan, hpre0⟩ :=
          (find_manager_some_iff default_managers e m).1 hf
        have hnv := managerConvert_noVE_of_canConvert m e hcan
        simp only [convert_element, hf] at herr
        exact absurd herr hnv
    · intro hall
      have hnone := (find_manager_none_iff default_managers e).2 hall
      rw [convert_element, hnone]
  · intro m hf
    obtain ⟨pre, post, heq, hcan, hpre⟩ :=
      (find_manager_some_iff default_managers e m).1 hf
    exact ⟨hcan, ⟨pre, post, heq, hpre⟩,
      by rw [convert_element, hf]⟩

theorem claim_C9_registry_dispatch_witness :
    managerCanConvert .paragraphM (.block (.para [])) = true ∧
    convert_element default_managers (.block (.para [])) =
      managerConvert .paragraphM (.block (.para [])) := by
  have h := (claim_C9_registry_dispatch (.block (.para []))).2.1
    .paragraphM rfl
  exact ⟨h.1, h.2.2⟩

/-- C3 counterexample: converting a bullet list whose single item
starts with the open-box glyph mutates the source AST in place — the
glyph is stripped out of the `Str` node and the following `Space`
node is removed — so the conversion is not purely functional over its
input tree. -/
theorem claim_C3_counterexample :
    (listManagerConvertS
        (.bulletList [[.plain [.str "☐", .space, .str "A"]]])).2 =
      .bulletList [[.plain [.str "", .str "A"]]] ∧
      PBlock.bulletList [[.plain [.str "", .str "A"]]] ≠
        .bulletList [[.plain [.str "☐", .space, .str "A"]]] := by
  constructor
  · have h1 : is_checkbox "☐" = true := by decide
    have h2 : strip_checkbox "☐" = "" := by decide
    simp [listManagerConvertS, convertListItems, convert_list_item,
      stripItemCheckbox, listItemLoop, popLeadingSpace, h1, h2]
  · simp

/-- C3 (amended): converting a bullet or ordered list leaves the
source tree unchanged provided no list item (at any nesting depth)
has a first `Plain` block whose first inline is a checkbox-led `Str`;
for such items the code strips the glyph from that `Str` and removes
one following `Space` node in place. -/
theorem claim_C3_purity (b : PBlock) (h : noCheckboxBlock b = true) :
    (listManagerConvertS b).2 = b :=
  listManagerConvertS_frame b h

/-- Witness for `claim_C3_purity` at a concrete checkbox-free list. -/
theorem claim_C3_purity_witness :
    noCheckboxBlock (.bulletList [[.plain [.str "hi"]]]) = true ∧
      (listManagerConvertS (.bulletList [[.plain [.str "hi"]]])).2 =
        .bulletList [[.plain [.str "hi"]]] :=
  have h : noCheckboxBlock (.bulletList [[.plain [.str "hi"]]]) =
      true := by
    simp [noCheckboxBlock, noCheckboxItems, noCheckboxItem,
      noCheckboxList, itemHeadClean, is_checkbox]
    decide
  ⟨h, claim_C3_purity (.bulletList [[.plain [.str "hi"]]]) h⟩

/-- C7 counterexample: a list item whose first text begins with the
open-box glyph but sits inside a `Para` block (a loose list item) is
not detected: the converted item keeps the `bulleted` kind, is
unchecked, and carries no text at all (`Para` children are skipped by
the item loop), refuting the claim for such items. -/
theorem claim_C7_counterexample :
    is_checkbox "☐" = true ∧
      (convert_list_item [.para [.str "☐", .space, .str "A"]]
          "bulleted").1 =
        .mk [] [] "bulleted" false := by
  constructor
  · decide
  · simp [convert_list_item, stripItemCheckbox, listItemLoop]

/-- C7 (amended): for a list item whose first block is a `Plain`
whose first inline is a `Str`:  an open-box-led `Str` yields kind
`todo` with `checked = false`; a checked-box-led `Str` yields
`checked = true`; in both cases the glyph and any immediately
following whitespace inside that `Str` are stripped
(`text[1:].lstrip()`) and one immediately following `Space` node is
dropped from the item's rendered text; a `Str` with no leading glyph
keeps the kind inherited from the list context. -/
theorem claim_C7_checkbox_detection :
    (∀ (s : String) (restInl : List PInline) (moreBlocks : List PBlock)
        (parent_type : String), pyStartswith s "☐" = true →
      ((convert_list_item (.plain (.str s :: restInl) :: moreBlocks)
          parent_type).1.item_type = "todo" ∧
        (convert_list_item (.plain (.str s :: restInl) :: moreBlocks)
          parent_type).1.checked = false ∧
        plainConcat (convert_list_item
            (.plain (.str s :: restInl) :: moreBlocks)
            parent_type).1.text_content =
          (strip_checkbox s).toList ++
            inlinesPlainText (popLeadingSpace restInl) ++
            plainConcat (listItemLoop moreBlocks).1)) ∧
    (∀ (s : String) (restInl : List PInline) (moreBlocks : List PBlock)
        (parent_type : String), pyStartswith s "☒" = true →
      ((convert_list_item (.plain (.str s :: restInl) :: moreBlocks)
          parent_type).1.item_type = "todo" ∧
        (convert_list_item (.plain (.str s :: restInl) :: moreBlocks)
          parent_type).1.checked = true ∧
        plainConcat (convert_list_item
            (.plain (.str s :: restInl) :: moreBlocks)
            parent_type).1.text_content =
          (strip_checkbox s).toList ++
            inlinesPlainText (popLeadingSpace restInl) ++
            plainConcat (listItemLoop moreBlocks).1)) ∧
    (∀ (s : String) (restInl : List PInline) (moreBlocks : List PBlock)
        (parent_type : String), is_checkbox s = false →
      ((convert_list_item (.plain (.str s :: restInl) :: moreBlocks)
          parent_type).1.item_type = parent_type ∧
        plainConcat (convert_list_item
            (.plain (.str s :: restInl) :: moreBlocks)
            parent_type).1.text_content =
          s.toList ++ inlinesPlainText restInl ++
            plainConcat (listItemLoop moreBlocks).1)) := by
  refine ⟨?_, ?_, ?_⟩
  · intro s restInl moreBlocks parent_type h
    have hcb : is_checkbox s = true := by
      simp [is_checkbox, h]
    have hchk : is_checked_checkbox s = false := by
      simp [is_checked_checkbox, glyph_open_not_checked s h]
    simp only [convert_list_item, stripItemCheckbox, hcb, if_true]
    simp only [listItemLoop]
    refine ⟨rfl, ?_, ?_⟩
    · simp [NListItem.checked, hchk]
    · simp only [NListItem.text_content]
      rw [plainConcat_append, plainConcat_create_text_elements]
      simp [inlinesPlainText, inlinePlainText, List.append_assoc]
  · intro s restInl moreBlocks parent_type h
    have hcb : is_checkbox s = true := by
      simp [is_checkbox, h]
    simp only [convert_list_item, stripItemCheckbox, hcb, if_true]
    simp only [listItemLoop]
    refine ⟨rfl, ?_, ?_⟩
    · simp [NListItem.checked, is_checked_checkbox, h]
    · simp only [NListItem.text_content]
      rw [plainConcat_append, plainConcat_create_text_elements]
      simp [inlinesPlainText, inlinePlainText, List.append_assoc]
  · intro s restInl moreBlocks parent_type hcb
    simp only [convert_list_item, stripItemCheckbox, hcb,
      Bool.false_eq_true, if_false]
    simp only [listItemLoop]
    refine ⟨?_, ?_⟩
    · simp [NListItem.item_type]
    · simp only [NListItem.text_content]
      rw [plainConcat_append, plainConcat_create_text_elements]
      simp [inlinesPlainText, inlinePlainText, List.append_assoc]

/-- Witness for `claim_C7_checkbox_detection` at concrete items. -/
theorem claim_C7_checkbox_detection_witness :
    pyStartswith "☐" "☐" = true ∧
      (convert_list_item [.plain [.str "☐", .space, .str "A"]]
          "bulleted").1.item_type = "todo" ∧
      (convert_list_item [.plain [.str "☐", .space, .str "A"]]
          "bulleted").1.checked = false ∧
      plainConcat (convert_list_item
          [.plain [.str "☐", .space, .str "A"]]
          "bulleted").1.text_content =
        (strip_checkbox "☐").toList ++
          inlinesPlainText (popLeadingSpace [.space, .str "A"]) ++
          plainConcat (listItemLoop []).1 :=
  have h : pyStartswith "☐" "☐" = true := by decide
  have hc := claim_C7_checkbox_detection.1 "☐" [.space, .str "A"] []
    "bulleted" h
  ⟨h, hc.1, hc.2.1, hc.2.2⟩

theorem convertWithManagerB_para (c : List PInline)
    (ts : List NotionInlineElement)
    (h : paragraphConvert c = .ok (.paragraph ts)) :
    convertWithManagerB (.para c) = .ok [.paragraph ts] := by
  simp only [convertWithManagerB, find_manager_para, managerConvert,
    h]

theorem processFirstElement_para (c : List PInline)
    (h : create_text_elements c ≠ []) :
    processFirstElement (.para c) =
      .ok (create_text_elements c, []) := by
  have hne : (create_text_elements c).isEmpty = false := by
    cases hc : create_text_elements c with
    | nil => exact absurd hc h
    | cons a l => rfl
  have hp : paragraphConvert c =
      .ok (.paragraph (create_text_elements c)) := by
    rw [paragraphConvert, if_pos hne]
  have hcw := convertWithManagerB_para c (create_text_elements c) hp
  rw [processFirstElement, hcw]
  rfl

theorem quoteChildrenLoop_paras (rest : List (List PInline))
    (h : ∀ c ∈ rest, create_text_elements c ≠ []) :
    quoteChildrenLoop (rest.map .para) =
      .ok (rest.map (fun c => .paragraph (create_text_elements c)))
    := by
  induction rest with
  | nil => rw [List.map_nil, quoteChildrenLoop]; rfl
  | cons c rest ih =>
    have hc := h c (List.mem_cons_self c rest)
    have hne : (create_text_elements c).isEmpty = false := by
      cases hcc : create_text_elements c with
      | nil => exact absurd hcc hc
      | cons a l => rfl
    have hts : paragraphConvert c =
        .ok (.paragraph (create_text_elements c)) := by
      rw [paragraphConvert, if_pos hne]
    have hcw := convertWithManagerB_para c _ hts
    have hpce : processChildElement (.para c) =
        .ok [.paragraph (create_text_elements c)] := by
      simp only [processChildElement]
      exact hcw
    have hloop := ih (fun c' hc' => h c' (List.mem_cons_of_mem c hc'))
    rw [List.map_cons, quoteChildrenLoop, hpce, hloop]
    rfl

theorem cte_nil : create_text_elements ([] : List PInline) = [] := by
  simp [create_text_elements, processStream, flushText,
    show pyTruthy "" = false from rfl]

theorem paragraphConvert_nil :
    paragraphConvert [] = .ok (.paragraph []) := by
  simp [paragraphConvert, cte_nil, paragraphFallback]

theorem processFirstElement_paraNil :
    processFirstElement (.para []) = .ok ([], []) := by
  have hcw := convertWithManagerB_para [] [] paragraphConvert_nil
  rw [processFirstElement, hcw]
  rfl

theorem cte_emph_nil :
    create_text_elements [PInline.emph []] = [] := by
  rw [create_text_elements, processStream_empty_iff]
  exact ⟨rfl, by simp [streamEmptyList, streamEmptyInl]⟩

theorem paragraphConvert_emph_attrError :
    paragraphConvert [.emph []] = .error .attributeError := by
  simp [paragraphConvert, cte_emph_nil, paragraphFallback]

theorem cte_str (s : String) (h : pyTruthy s = true) :
    create_text_elements [.str s] =
      [.text s Annotations.mkDefault none] := by
  simp [create_text_elements, processStream, flushText,
    inlineElementConvert, textManager_can_convert,
    textManagerCanConvertInline, is_content_token,
    is_formatting_token, hasInlineHandler, Annotations.copy, h]

theorem quoteManagerConvert_attrError_example :
    quoteManagerConvert [.para [.str "a"], .para [.emph []]] =
      .error .attributeError := by
  have hcw : convertWithManagerB (.para [.emph []]) =
      .error .attributeError := by
    simp only [convertWithManagerB, find_manager_para,
      managerConvert, paragraphConvert_emph_attrError]
  have hpce : processChildElement (.para [.emph []]) =
      .error .attributeError := by
    simp only [processChildElement]
    exact hcw
  have hloop : quoteChildrenLoop [.para [.emph []]] =
      .error .attributeError := by
    simp only [quoteChildrenLoop, hpce]
  have ha : create_text_elements [PInline.str "a"] ≠ [] := by
    rw [cte_str "a" rfl]
    simp
  rw [quoteManagerConvert, processFirstElement_para _ ha, hloop]

/-- C6: the run-merge pass is idempotent — once adjacent `Text`
elements with identical annotations and links have been coalesced,
running `merge_consecutive_texts` again changes nothing. -/
theorem claim_C6_merge_idempotent (x : List NotionInlineElement) :
    merge_consecutive_texts (merge_consecutive_texts x) =
      merge_consecutive_texts x := by
  cases x with
  | nil => rfl
  | cons t ts =>
    obtain ⟨h, tl, heq, _⟩ := mergeAux_head ts t
    have hn := mergeAux_normal ts t
    rw [heq] at hn
    show merge_consecutive_texts (mergeAux t ts) = mergeAux t ts
    rw [heq]
    exact mergeAux_id_of_normal tl h hn

/-- C10: merging loses no content — the concatenation of
`get_content` over the output equals that over the input, and the
non-`Text` elements survive unchanged and in order. -/
theorem claim_C10_merge_preserves_content
    (x : List NotionInlineElement) :
    plainConcat (merge_consecutive_texts x) = plainConcat x ∧
    (merge_consecutive_texts x).filter (fun e => !isTextElement e) =
      x.filter (fun e => !isTextElement e) := by
  cases x with
  | nil => exact ⟨rfl, rfl⟩
  | cons t ts =>
    constructor
    · show plainConcat (mergeAux t ts) = plainConcat (t :: ts)
      rw [mergeAux_plainConcat ts t]
      rfl
    · exact mergeAux_filter_nonText ts t

/-- C2 (code bug): in `"x + y \tag{42}"` the `\tag{` brace content
spans indices 11–13 and is `"42"`, but `_extract_equation_number`
slices from `tag_start + 6` although `\tag{` is five characters, so
the converter attaches `"2"` — the first character of the tag is
dropped, contradicting both the claim and the code's own comment. -/
theorem claim_C2_tag_number_dropped :
    pySlice "x + y \\tag{42}" 11 13 = "42" ∧
    extract_equation_number "x + y \\tag{42}" = some "2" ∧
    equationManagerConvert "x + y \\tag{42}" =
      [.equation "x + y \\tag{42}" (some "2")] :=
  ⟨rfl, rfl, rfl⟩

/-- C4 counterexample: the wire objects of code and equation blocks
have no `"color"` field inside the kind-keyed object (the lookup
returns `none`), contradicting the claim that every block kind
carries `"color":"default"` there. -/
theorem claim_C4_counterexample :
    (blockDicts (.code "print()" "python" none)).map
        (fun j => (j.lookup "code").map
          (fun i => i.lookup "color")) = [some none] ∧
    (blockDicts (.equation "E=mc^2" none)).map
        (fun j => (j.lookup "equation").map
          (fun i => i.lookup "color")) = [some none] :=
  ⟨rfl, rfl⟩

theorem itemTypeMapping_cases (ty : String) :
    itemTypeMapping ty = "bulleted_list_item" ∨
      itemTypeMapping ty = "numbered_list_item" ∨
      itemTypeMapping ty = "to_do" := by
  unfold itemTypeMapping
  split_ifs <;> simp

/-- C4 (amended): paragraph, heading, quote and list-item wire
objects have the claimed `{"object":"block","type":kind,kind:{...}}`
shape with `"color":"default"` inside the kind-keyed object; code and
equation wire objects have the same outer shape but no `"color"`
field at all. -/
theorem claim_C4_wire_shapes :
    (∀ tc, ∀ j ∈ blockDicts (.paragraph tc),
      hasWireShape j "paragraph" (some (.str "default"))) ∧
    (∀ lvl tc, lvl = 1 ∨ lvl = 2 ∨ lvl = 3 →
      ∀ j ∈ blockDicts (.heading lvl tc),
        hasWireShape j ("heading_" ++ toString lvl)
          (some (.str "default"))) ∧
    (∀ tc ch, ∀ j ∈ blockDicts (.quote tc ch),
      hasWireShape j "quote" (some (.str "default"))) ∧
    (∀ tc ch ty ck, ∀ j ∈ itemDicts [.mk tc ch ty ck],
      hasWireShape j (itemTypeMapping ty)
        (some (.str "default"))) ∧
    (∀ t lang cap, ∀ j ∈ blockDicts (.code t lang cap),
      hasWireShape j "code" none) ∧
    (∀ expr num, ∀ j ∈ blockDicts (.equation expr num),
      hasWireShape j "equation" none) := by
  refine ⟨?_, ?_, ?_, ?_, ?_, ?_⟩
  · intro tc j hj
    simp only [blockDicts, List.mem_singleton] at hj
    subst hj
    exact ⟨rfl, rfl, _, rfl, rfl⟩
  · rintro lvl tc (rfl | rfl | rfl) j hj <;>
      simp only [blockDicts, List.mem_singleton] at hj <;>
      subst hj <;> exact ⟨rfl, rfl, _, rfl, rfl⟩
  · intro tc ch j hj
    by_cases hch : ch.isEmpty
    · simp only [blockDicts, if_pos hch, List.mem_singleton] at hj
      subst hj
      exact ⟨rfl, rfl, _, rfl, rfl⟩
    · simp only [blockDicts, if_neg hch, List.mem_singleton] at hj
      subst hj
      exact ⟨rfl, rfl, _, rfl, rfl⟩
  · intro tc ch ty ck j hj
    simp only [itemDicts, itemDict, List.mem_singleton] at hj
    subst hj
    rcases itemTypeMapping_cases ty with h | h | h <;> rw [h] <;>
      exact ⟨rfl, rfl, _, rfl, rfl⟩
  · intro t lang cap j hj
    simp only [blockDicts, List.mem_singleton] at hj
    subst hj
    exact ⟨rfl, rfl, _, rfl, rfl⟩
  · intro expr num j hj
    simp only [blockDicts, List.mem_singleton] at hj
    subst hj
    exact ⟨rfl, rfl, _, rfl, rfl⟩

/-- Witness for `claim_C4_wire_shapes` at an empty paragraph. -/
theorem claim_C4_wire_shapes_witness :
    hasWireShape (Json.obj [("object", .str "block"),
      ("type", .str "paragraph"),
      ("paragraph", .obj [("rich_text", .arr []),
        ("color", .str "default")])]) "paragraph"
      (some (.str "default")) :=
  claim_C4_wire_shapes.1 [] _
    (by simp [blockDicts, merge_consecutive_texts])

/-- C1 counterexample: an empty blockquote takes the early return in
`QuoteManager.convert`, which skips the empty-text fixup, so the
resulting quote block has zero text runs and serializes with
`"rich_text": []` — an empty array, not a single empty text run. -/
theorem claim_C1_counterexample :
    quoteManagerConvert [] = .ok [.quote [] []] ∧
    (blockDicts (.quote [] [])).map
        (fun j => (j.lookup "quote").map
          (fun i => i.lookup "rich_text")) =
      [some (some (.arr []))] :=
  ⟨by rw [quoteManagerConvert], rfl⟩

/-- C1 (amended): an empty blockquote converts to exactly one quote
block with an EMPTY rich text (serialized as the empty array); the
single-empty-text-run fixup fires only for nonempty blockquotes whose
first element contributes no rich text. -/
theorem claim_C1_empty_blockquote :
    (quoteManagerConvert [] = .ok [.quote [] []] ∧
      blockDicts (.quote [] []) =
        [.obj [("object", .str "block"), ("type", .str "quote"),
          ("quote", .obj [("rich_text", .arr []),
            ("color", .str "default")])]]) ∧
    (∀ first rest fr cs,
      processFirstElement first = .ok fr → fr.1 = [] →
      quoteChildrenLoop rest = .ok cs →
      quoteManagerConvert (first :: rest) =
        .ok [.quote [.text "" Annotations.mkDefault none]
          (fr.2 ++ cs)]) := by
  refine ⟨⟨by rw [quoteManagerConvert], rfl⟩, ?_⟩
  intro first rest fr cs h1 h2 h3
  rw [quoteManagerConvert, h1, h3]
  simp [h2]

/-- Witness for `claim_C1_empty_blockquote` at a blockquote holding
one empty paragraph. -/
theorem claim_C1_empty_blockquote_witness :
    processFirstElement (.para []) = .ok ([], []) ∧
    quoteChildrenLoop [] = .ok [] ∧
    quoteManagerConvert [.para []] =
      .ok [.quote [.text "" Annotations.mkDefault none] []] := by
  refine ⟨processFirstElement_paraNil, by rw [quoteChildrenLoop], ?_⟩
  have h := claim_C1_empty_blockquote.2 (.para []) [] ([], []) []
    processFirstElement_paraNil rfl (by rw [quoteChildrenLoop])
  simpa using h

/-- C5 counterexample: when the first paragraph of a blockquote is
empty, its inline conversion is `[]`, but the converted quote's rich
text is the fixup's single empty text run — not the inline-engine
conversion of the first paragraph as the claim states. -/
theorem claim_C5_counterexample :
    create_text_elements ([] : List PInline) = [] ∧
    quoteManagerConvert [.para [], .para [.str "x"]] =
      .ok [.quote [.text "" Annotations.mkDefault none]
        [.paragraph [.text "x" Annotations.mkDefault none]]] := by
  refine ⟨cte_nil, ?_⟩
  have hx : paragraphConvert [.str "x"] =
      .ok (.paragraph [.text "x" Annotations.mkDefault none]) := by
    have hc := cte_str "x" rfl
    rw [paragraphConvert, if_pos (by rw [hc]; rfl), hc]
  have hpce : processChildElement (.para [.str "x"]) =
      .ok [.paragraph [.text "x" Annotations.mkDefault none]] := by
    simp only [processChildElement]
    exact convertWithManagerB_para _ _ hx
  have hloop : quoteChildrenLoop [.para [.str "x"]] =
      .ok [.paragraph [.text "x" Annotations.mkDefault none]] := by
    simp only [quoteChildrenLoop, hpce, List.append_nil]
  rw [quoteManagerConvert, processFirstElement_paraNil, hloop]
  simp

/-- C5 (amended): a blockquote whose first child is a paragraph with
NONEMPTY inline conversion, followed by further paragraphs each with
nonempty inline conversion, yields exactly one quote block whose
rich text is the inline conversion of the first paragraph and whose
children are the converted blocks of the remaining paragraphs, in
order.  (A later paragraph with EMPTY inline conversion instead
sends a non-`Str`/`Space` element into the fallback loop, whose
undefined `cls.has_manager_for` raises `AttributeError` and aborts
the whole quote conversion; an empty FIRST paragraph triggers the
single-empty-text-run fixup, per C1.) -/
theorem claim_C5_quote_flattening (c1 : List PInline)
    (rest : List (List PInline))
    (h1 : create_text_elements c1 ≠ [])
    (h2 : ∀ c ∈ rest, create_text_elements c ≠ []) :
    quoteManagerConvert (.para c1 :: rest.map .para) =
      .ok [.quote (create_text_elements c1)
        (rest.map (fun c => .paragraph (create_text_elements c)))]
    := by
  rw [quoteManagerConvert, processFirstElement_para c1 h1,
    quoteChildrenLoop_paras rest h2]
  have hne : (create_text_elements c1).isEmpty = false := by
    cases hc : create_text_elements c1 with
    | nil => exact absurd hc h1
    | cons a l => rfl
  simp [hne]

/-- Witness for `claim_C5_quote_flattening` at a two-paragraph
blockquote. -/
theorem claim_C5_quote_flattening_witness :
    create_text_elements [PInline.str "a"] ≠ [] ∧
    (∀ c ∈ [[PInline.str "b"]], create_text_elements c ≠ []) ∧
    quoteManagerConvert
        (.para [.str "a"] :: ([[PInline.str "b"]]).map .para) =
      .ok [.quote (create_text_elements [.str "a"])
        (([[PInline.str "b"]]).map
          (fun c => .paragraph (create_text_elements c)))] := by
  have ha : create_text_elements [PInline.str "a"] ≠ [] := by
    rw [cte_str "a" rfl]
    simp
  have hb : ∀ c ∈ [[PInline.str "b"]],
      create_text_elements c ≠ [] := by
    intro c hc
    rw [List.mem_singleton] at hc
    subst hc
    rw [cte_str "b" rfl]
    simp
  exact ⟨ha, hb,
    claim_C5_quote_flattening [.str "a"] [[.str "b"]] ha hb⟩

/-- C8: `Heading.__init__` stores the clamped level
`min(max(L,1),3)`, and for raw levels 4, 5 and 6 the serialized wire
type is `"heading_3"`. -/
theorem claim_C8_heading_clamp (L : Nat) (c : List PInline) :
    (∃ bs, headingManagerConvert (.header L c) = .ok bs ∧
      bs.map NBlock.storedHeadingLevel = [some (min (max L 1) 3)]) ∧
    (L = 4 ∨ L = 5 ∨ L = 6 →
      (blockDicts (headingInit L (create_text_elements c))).map
        (fun j => j.lookup "type") = [some (.str "heading_3")]) := by
  constructor
  · exact ⟨[headingInit L (create_text_elements c)], rfl,
      by simp [headingInit, NBlock.storedHeadingLevel,
        headingClampedLevel]⟩
  · rintro (rfl | rfl | rfl) <;> rfl

/-- Witness for `claim_C8_heading_clamp` at raw level 4. -/
theorem claim_C8_heading_clamp_witness :
    (∃ bs, headingManagerConvert (.header 4 []) = .ok bs ∧
      bs.map NBlock.storedHeadingLevel =
        [some (min (max 4 1) 3)]) ∧
    (blockDicts (headingInit 4 (create_text_elements []))).map
        (fun j => j.lookup "type") = [some (.str "heading_3")] := by
  have h := claim_C8_heading_clamp 4 []
  exact ⟨h.1, h.2 (Or.inl rfl)⟩

end PandocNotion
